import Mathlib

/-!
# Block-group tiling check (`common/block-group.c`)

A shallow embedding of the merge-walk over the free-space tree and the extent
tree, and theorems about it.

Conventions of the embedding:

* C `u64` values are natural numbers; every addition performed by the code on
  `u64` is reduced modulo `2 ^ 64`, and the initial value `(u64)-1` is
  `2 ^ 64 - 1`.
* A tree cursor (`struct btrfs_path` together with the tree it walks) is the
  list of entries it has not yet visited, in the order the cursor visits them.
* `walk_trees` is a loop nest; it is embedded as a transition function
  `walk_step` between the two loop heads (the outer `while` at line 173 and
  the `while (1)` at line 246) and run with a step budget by `walk_run`.
  A run that does not reach the `return` within the budget yields `none`.
* The `ERROR ...` line printed before `goto error` is recorded, with the
  values it prints, as a `walk_diag`.
-/

namespace BlockGroup

/-! ## Keys and constants -/

/-- The on-disk key `struct btrfs_key`: `objectid` and `offset` are `u64`,
`type` is `u8`. -/
structure btrfs_key where
  objectid : Nat
  type : Nat
  offset : Nat
deriving DecidableEq

/-- Modelled from the spec: the tag of the "free-space boundary marker" entry
kind. The constant is declared in `kernel-shared/uapi/btrfs_tree.h`, which is
not among the sources; the value is the one of the on-disk format. -/
def BTRFS_FREE_SPACE_INFO_KEY : Nat := 198

/-- Modelled from the spec: the tag of the "free-space extent" entry kind
(declared in `kernel-shared/uapi/btrfs_tree.h`, not among the sources). -/
def BTRFS_FREE_SPACE_EXTENT_KEY : Nat := 199

/-- Modelled from the spec: the tag of the "free-space bitmap" entry kind
(declared in `kernel-shared/uapi/btrfs_tree.h`, not among the sources). -/
def BTRFS_FREE_SPACE_BITMAP_KEY : Nat := 200

/-- Modelled from the spec: the tag of the "allocated extent (explicit
length)" entry kind (declared in `kernel-shared/uapi/btrfs_tree.h`, not among
the sources). -/
def BTRFS_EXTENT_ITEM_KEY : Nat := 168

/-- Modelled from the spec: the tag of the "allocated extent (implicit
length)" entry kind (declared in `kernel-shared/uapi/btrfs_tree.h`, not among
the sources). -/
def BTRFS_METADATA_ITEM_KEY : Nat := 169

/-- Modelled from the spec: the tag of a root item, used only to build the key
handed to the root registry (declared in `kernel-shared/uapi/btrfs_tree.h`,
not among the sources). -/
def BTRFS_ROOT_ITEM_KEY : Nat := 132

/-- Modelled from the spec: the well-known identifier of the extent tree
(declared in `kernel-shared/uapi/btrfs_tree.h`, not among the sources). -/
def BTRFS_EXTENT_TREE_OBJECTID : Nat := 2

/-- Modelled from the spec: the well-known identifier of the free-space tree
(declared in `kernel-shared/uapi/btrfs_tree.h`, not among the sources). -/
def BTRFS_FREE_SPACE_TREE_OBJECTID : Nat := 10

/-- The flag `PROCESS_FREE_SPACE_TREE_ELEMENT_FLAG` (line 16): `1ULL << 0`. -/
def PROCESS_FREE_SPACE_TREE_ELEMENT_FLAG : Nat := 1 <<< 0

/-- The flag `PROCESS_EXTENT_TREE_ELEMENT_FLAG` (line 17): `1ULL << 1`. -/
def PROCESS_EXTENT_TREE_ELEMENT_FLAG : Nat := 1 <<< 1

/-- The value `(u64)-1` with which `walk_trees` initialises its positions. -/
def U64_MINUS_ONE : Nat := 2 ^ 64 - 1

/-- A key whose fields fit their C types. -/
def key_in_range (k : btrfs_key) : Prop :=
  k.objectid < 2 ^ 64 ∧ k.type < 2 ^ 8 ∧ k.offset < 2 ^ 64

instance (k : btrfs_key) : Decidable (key_in_range k) := by
  unfold key_in_range; infer_instance

/-! ## Cursor -/

/-- Modelled from the spec: `cursor.next() -> Option<(key, leaf_context)>`,
exhausted when `None`, transparently crossing leaf boundaries. This is
`next_element` (lines 69-90) with the leaf and slot bookkeeping of
`btrfs_header_nritems`, `btrfs_next_leaf` and `btrfs_item_key_to_cpu` (not
among the sources) replaced by the list of entries still ahead of the cursor:
`none` is `return 1` (done walking), `some (key, rest)` is `return 0` with
`*key` filled in and the slot advanced. -/
def next_element (path : List btrfs_key) : Option (btrfs_key × List btrfs_key) :=
  match path with
  | [] => none
  | key :: rest => some (key, rest)

/-! ## Range decoders -/

/-- The function `process_free_space_info` (lines 92-103): the returned triple
is the return value and the contents of `*start` and `*end` afterwards. -/
def process_free_space_info (key : btrfs_key) (start end_ : Nat) : Int × Nat × Nat :=
  if key.type ≠ BTRFS_FREE_SPACE_INFO_KEY then
    (0, start, end_)
  else
    (1, key.objectid, (key.objectid + key.offset) % 2 ^ 64)

/-- The function `process_free_space_extent` (lines 105-117). It returns 1 on
every path, also when the key is of neither kind and nothing is written. -/
def process_free_space_extent (key : btrfs_key) (start end_ : Nat) : Int × Nat × Nat :=
  if key.type = BTRFS_FREE_SPACE_EXTENT_KEY then
    (1, key.objectid, (key.objectid + key.offset) % 2 ^ 64)
  else if key.type = BTRFS_FREE_SPACE_BITMAP_KEY then
    (1, start, end_)
  else
    (1, start, end_)

/-- The function `process_extent` (lines 119-136); `metadata_size` is a `u32`
and is widened to `u64` by the addition. -/
def process_extent (key : btrfs_key) (start end_ : Nat) (metadata_size : Nat) :
    Int × Nat × Nat :=
  if key.type = BTRFS_EXTENT_ITEM_KEY then
    (1, key.objectid, (key.objectid + key.offset) % 2 ^ 64)
  else if key.type = BTRFS_METADATA_ITEM_KEY then
    (1, key.objectid, (key.objectid + metadata_size) % 2 ^ 64)
  else
    (0, start, end_)

/-! ## The walk -/

/-- A tree as `walk_trees` sees it: its entries in cursor order and the
`nodesize` of its `fs_info` (a `u32`). `root_key_objectid` is
`root_key.objectid`. -/
structure btrfs_root where
  root_key_objectid : Nat
  nodesize : Nat
  items : List btrfs_key
deriving DecidableEq

/-- The local variables of `walk_trees` (lines 140-163). `fs_path` and
`e_path` are the two cursors; `end_` is the variable `end`. The scratch
variables `key`, `leaf` and `slot` carry nothing from one use to the next and
are left out. -/
structure walk_state where
  fs_path : List btrfs_key
  e_path : List btrfs_key
  metadata_size : Nat
  fs_walk_done : Bool
  e_walk_done : Bool
  process : Nat
  bg_start : Nat
  bg_end : Nat
  end_ : Nat
  fs_start : Nat
  fs_end : Nat
  e_start : Nat
  e_end : Nat
  filled_bg : Int
deriving DecidableEq

/-- The `ERROR` line printed before `goto error`, with the values printed. -/
inductive walk_diag where
  /-- Line 182: `ERROR not found FREE_SPACE_INFO`. -/
  | not_found_free_space_info
  /-- Line 207: `ERROR extent(s) remaining after final block group`. -/
  | extents_remaining
  /-- Line 217: `ERROR free space %lld-%lld starts before block group %lld-%lld`. -/
  | free_space_starts_before (fs_start fs_end bg_start bg_end : Nat)
  /-- Line 224: `ERROR extent %lld-%lld starts before block group %lld-%lld`. -/
  | extent_starts_before (e_start e_end bg_start bg_end : Nat)
  /-- Line 241: `ERROR gap at the start of block group`. -/
  | gap_at_start
  /-- Line 254: `ERROR extent range ends %lld outside of block group %lld-%lld`. -/
  | range_ends_outside (end_ bg_start bg_end : Nat)
  /-- Line 286: `ERROR gap in block group %lld-%lld, expected something starting at %lld`. -/
  | gap_in_block_group (bg_start bg_end end_ : Nat)
  /-- Line 297: `ERROR did not fill bg %lld-%lld`. -/
  | did_not_fill (bg_start bg_end : Nat)
deriving DecidableEq

/-- What `walk_trees` leaves behind when it returns: the value returned, the
`ERROR` line printed (if any) and the local variables at that moment. -/
structure walk_result where
  ret : Int
  diag : Option walk_diag
  st : walk_state
deriving DecidableEq

/-- What the caller can observe of a walk: the value returned and the `ERROR`
line printed. -/
def walk_result.outcome (r : walk_result) : Int × Option walk_diag := (r.ret, r.diag)

/-- Where control is: at the head of the outer loop (line 173), at the head of
the `while (1)` loop (line 246), or past the label `error` (lines 303-306). -/
inductive walk_config where
  | outer (st : walk_state)
  | extend (st : walk_state)
  | exit (r : walk_result)
deriving DecidableEq

/-- The loop of lines 189-194 and 262-267 once `!fs_walk_done` is known, by
recursion on the entries ahead of the free-space cursor: each round calls
`next_element` and then `process_free_space_extent`. -/
def free_space_seek_loop (st : walk_state) : List btrfs_key → walk_state
  | [] => { st with fs_path := [], fs_walk_done := true }
  | key :: rest =>
    let r := process_free_space_extent key st.fs_start st.fs_end
    let st1 := { st with fs_path := rest, fs_start := r.2.1, fs_end := r.2.2 }
    if r.1 ≠ 0 then st1 else free_space_seek_loop st1 rest

/-- The loop of lines 189-194 and 262-267. -/
def seek_free_space (st : walk_state) : walk_state :=
  if st.fs_walk_done then st else free_space_seek_loop st st.fs_path

/-- The loop of lines 198-202 and 269-274 once `!e_walk_done` is known, by
recursion on the entries ahead of the extent cursor. -/
def extent_seek_loop (st : walk_state) : List btrfs_key → walk_state
  | [] => { st with e_path := [], e_walk_done := true }
  | key :: rest =>
    let r := process_extent key st.e_start st.e_end st.metadata_size
    let st1 := { st with e_path := rest, e_start := r.2.1, e_end := r.2.2 }
    if r.1 ≠ 0 then st1 else extent_seek_loop st1 rest

/-- The loop of lines 198-202 and 269-274. -/
def seek_extent (st : walk_state) : walk_state :=
  if st.e_walk_done then st else extent_seek_loop st st.e_path

/-- Step 1, lines 175-185: `Except.error` is the `goto error` of line 184.
The loop body either breaks or leaves the function, so it runs at most once. -/
def seek_boundary (st : walk_state) : Except walk_state walk_state :=
  if st.fs_walk_done then .ok st
  else
    match next_element st.fs_path with
    | none => .ok { st with fs_walk_done := true }
    | some (key, rest) =>
      let r := process_free_space_info key st.bg_start st.bg_end
      let st1 := { st with fs_path := rest, bg_start := r.2.1, bg_end := r.2.2 }
      if r.1 ≠ 0 then .ok { st1 with filled_bg := 0 } else .error st1

/-- Step 2, lines 188-203: the two seeks, each under its flag of `process`. -/
def seek_initial (st : walk_state) : walk_state :=
  let st1 := if st.process &&& PROCESS_FREE_SPACE_TREE_ELEMENT_FLAG ≠ 0 then seek_free_space st
    else st
  if st1.process &&& PROCESS_EXTENT_TREE_ELEMENT_FLAG ≠ 0 then seek_extent st1 else st1

/-- Lines 296-302, reached when the outer loop ends or is left by `break`. -/
def final_check (st : walk_state) : walk_config :=
  if st.filled_bg = 0 then
    .exit ⟨-1, some (.did_not_fill st.bg_start st.bg_end), st⟩
  else
    .exit ⟨0, none, st⟩

/-- Lines 205-244: the terminal check and the choice of the first interval of
the block group, on the state left by the seeks. -/
def start_rule (st : walk_state) : walk_config :=
  if st.fs_walk_done then
    if !st.e_walk_done then .exit ⟨-1, some .extents_remaining, st⟩
    else final_check st
  else if st.fs_start < st.bg_start then
    .exit ⟨-1, some (.free_space_starts_before st.fs_start st.fs_end st.bg_start st.bg_end), st⟩
  else if st.e_start < st.bg_start then
    .exit ⟨-1, some (.extent_starts_before st.e_start st.e_end st.bg_start st.bg_end), st⟩
  else if st.fs_start = st.bg_start then
    .extend { st with end_ := st.fs_end, process := PROCESS_FREE_SPACE_TREE_ELEMENT_FLAG }
  else if st.e_start = st.bg_start then
    .extend { st with end_ := st.e_end, process := PROCESS_EXTENT_TREE_ELEMENT_FLAG }
  else
    .exit ⟨-1, some .gap_at_start, st⟩

/-- One pass from the head of the outer loop (line 173) to the next loop head
or to the return. -/
def outer_step (st : walk_state) : walk_config :=
  if !st.fs_walk_done || !st.e_walk_done then
    match seek_boundary st with
    | .error st1 => .exit ⟨-1, some .not_found_free_space_info, st1⟩
    | .ok st1 => start_rule (seek_initial st1)
  else final_check st

/-- Lines 261-275: the seek on the active side inside the `while (1)` loop. -/
def seek_active (st : walk_state) : walk_state :=
  if st.process &&& PROCESS_FREE_SPACE_TREE_ELEMENT_FLAG ≠ 0 then seek_free_space st
  else if st.process &&& PROCESS_EXTENT_TREE_ELEMENT_FLAG ≠ 0 then seek_extent st
  else st

/-- One round of the `while (1)` loop of lines 246-293. -/
def extend_step (st : walk_state) : walk_config :=
  if st.end_ = st.bg_end then
    .outer { st with filled_bg := 1 }
  else if st.end_ > st.bg_end then
    .exit ⟨-1, some (.range_ends_outside st.end_ st.bg_start st.bg_end), st⟩
  else
    let st1 := seek_active st
    if st1.fs_start = st1.end_ then
      .extend { st1 with end_ := st1.fs_end, process := PROCESS_FREE_SPACE_TREE_ELEMENT_FLAG }
    else if st1.e_start = st1.end_ then
      .extend { st1 with end_ := st1.e_end, process := PROCESS_EXTENT_TREE_ELEMENT_FLAG }
    else
      .exit ⟨-1, some (.gap_in_block_group st1.bg_start st1.bg_end st1.end_), st1⟩

/-- One transition of the walk. -/
def walk_step : walk_config → walk_config
  | .outer st => outer_step st
  | .extend st => extend_step st
  | .exit r => .exit r

/-- The configuration after `n` transitions. -/
def walk_iter : Nat → walk_config → walk_config
  | 0, c => c
  | n + 1, c => walk_iter n (walk_step c)

/-- Run the walk for at most `fuel` transitions; `none` when the return has
not been reached by then. -/
def walk_run : Nat → walk_config → Option walk_result
  | _, .exit r => some r
  | 0, _ => none
  | fuel + 1, c => walk_run fuel (walk_step c)

/-- Modelled from the spec: `search_first(tree) -> cursor` positioned before
the first entry. This is the state of `walk_trees` when the outer loop is
first reached (lines 140-171): the two calls of `btrfs_search_slot` (not among
the sources) with the all-zero key leave each cursor in front of the first
entry of its tree and do not fail. `metadata_size` is `nodesize` (`u32`)
stored in an `int` and passed on as `u32`. -/
def walk_init (free_space_root extent_root : btrfs_root) : walk_state :=
  { fs_path := free_space_root.items
    e_path := extent_root.items
    metadata_size := extent_root.nodesize % 2 ^ 32
    fs_walk_done := false
    e_walk_done := false
    process := PROCESS_EXTENT_TREE_ELEMENT_FLAG ||| PROCESS_FREE_SPACE_TREE_ELEMENT_FLAG
    bg_start := U64_MINUS_ONE
    bg_end := U64_MINUS_ONE
    end_ := U64_MINUS_ONE
    fs_start := U64_MINUS_ONE
    fs_end := U64_MINUS_ONE
    e_start := U64_MINUS_ONE
    e_end := U64_MINUS_ONE
    filled_bg := -1 }

/-- The function `walk_trees` (lines 138-307), run for at most `fuel`
transitions between loop heads. -/
def walk_trees (fuel : Nat) (free_space_root extent_root : btrfs_root) : Option walk_result :=
  walk_run fuel (.outer (walk_init free_space_root extent_root))

/-! ## Root resolution and the entry point -/

/-- What `get_free_space_root`, `get_extent_root` and
`check_block_group_overlap` observe of their argument `root`:
`root_key_objectid` is `root->root_key.objectid`; `global_root key` is the
result of `btrfs_global_root(root->fs_info, &key)`, with `none` for `NULL`;
`rb_next` is `rb_next(&root->rb_node)` seen through `rb_entry`, with `none`
for `NULL`. The registry and the red-black tree are not among the sources and
are taken as given. -/
structure root_handle where
  root_key_objectid : Nat
  global_root : btrfs_key → Option btrfs_root
  rb_next : Option btrfs_root

/-- The `while (1)` loop of lines 30-40, with `fuel` bounding the number of
rounds; `none` when the loop has not been left by then. `ret` is 0 throughout.
Nothing the loop tests changes from one round to the next. -/
def get_free_space_root_loop (root : root_handle) (ret : Int) :
    Nat → Option btrfs_root → Option (Option btrfs_root)
  | 0, _ => none
  | fuel + 1, free_space_root =>
    if ret ≠ 0 then some free_space_root
    else
      match root.rb_next with
      | none => some free_space_root
      | some n =>
        if root.root_key_objectid ≠ BTRFS_FREE_SPACE_TREE_OBJECTID then some (some n)
        else get_free_space_root_loop root ret fuel (some n)

/-- The function `get_free_space_root` (lines 19-42): `none` when the loop does
not end within `fuel` rounds, `some none` for a `NULL` result. -/
def get_free_space_root (fuel : Nat) (root : root_handle) : Option (Option btrfs_root) :=
  get_free_space_root_loop root 0 fuel
    (root.global_root ⟨BTRFS_FREE_SPACE_TREE_OBJECTID, BTRFS_ROOT_ITEM_KEY, 0⟩)

/-- The `while (1)` loop of lines 55-65; it tests the same object id as the
loop of `get_free_space_root`. -/
def get_extent_root_loop (root : root_handle) (ret : Int) :
    Nat → Option btrfs_root → Option (Option btrfs_root)
  | 0, _ => none
  | fuel + 1, extent_root =>
    if ret ≠ 0 then some extent_root
    else
      match root.rb_next with
      | none => some extent_root
      | some n =>
        if root.root_key_objectid ≠ BTRFS_FREE_SPACE_TREE_OBJECTID then some (some n)
        else get_extent_root_loop root ret fuel (some n)

/-- The function `get_extent_root` (lines 44-67). -/
def get_extent_root (fuel : Nat) (root : root_handle) : Option (Option btrfs_root) :=
  get_extent_root_loop root 0 fuel
    (root.global_root ⟨BTRFS_EXTENT_TREE_OBJECTID, BTRFS_ROOT_ITEM_KEY, 0⟩)

/-- The function `check_block_group_overlap` (lines 309-324): `none` when one
of the calls does not return within `fuel`. The value of `walk_trees` is not
used (line 321) and 0 is returned after it (line 323). -/
def check_block_group_overlap (fuel : Nat) (root : root_handle) : Option Int :=
  match get_free_space_root fuel root with
  | none => none
  | some none => some (-1)
  | some (some free_space_root) =>
    match get_extent_root fuel root with
    | none => none
    | some none => some (-1)
    | some (some extent_root) =>
      match walk_trees fuel free_space_root extent_root with
      | none => none
      | some _ => some 0

/-! ## What the specification asks of an accepted image -/

/-- The intervals the two decoders produce from the entries of the two trees:
one for each `FREE_SPACE_EXTENT` key, one for each `EXTENT_ITEM` or
`METADATA_ITEM` key. -/
def decoded_intervals (fs e : List btrfs_key) (metadata_size : Nat) : List (Nat × Nat) :=
  fs.filterMap (fun k =>
      if k.type = BTRFS_FREE_SPACE_EXTENT_KEY then some (process_free_space_extent k 0 0).2
      else none) ++
    e.filterMap (fun k =>
      if (process_extent k 0 0 metadata_size).1 ≠ 0 then some (process_extent k 0 0 metadata_size).2
      else none)

/-- Two half-open intervals share a position. -/
def intervals_overlap (a b : Nat × Nat) : Prop :=
  ∃ x, a.1 ≤ x ∧ x < a.2 ∧ b.1 ≤ x ∧ x < b.2

/-- The intervals of `ivs` that start inside `[s, s + len)` are pairwise
disjoint and their union is `[s, s + len)`. -/
def tiles_block_group (s len : Nat) (ivs : List (Nat × Nat)) : Prop :=
  (ivs.filter (fun iv => s ≤ iv.1 ∧ iv.1 < s + len)).Pairwise
      (fun a b => ¬ intervals_overlap a b) ∧
    ∀ x, (s ≤ x ∧ x < s + len) ↔
      ∃ iv ∈ ivs.filter (fun iv => s ≤ iv.1 ∧ iv.1 < s + len), iv.1 ≤ x ∧ x < iv.2

/-- Every block group announced by a `FREE_SPACE_INFO` key is tiled exactly by
the decoded intervals. -/
def image_tiled (fs e : List btrfs_key) (metadata_size : Nat) : Prop :=
  ∀ k ∈ fs, k.type = BTRFS_FREE_SPACE_INFO_KEY →
    tiles_block_group k.objectid k.offset (decoded_intervals fs e metadata_size)

/-! ## Inputs used below -/

/-- Free-space tree: block group `[0, 100)`, free `[0, 50)` and `[60, 100)`. -/
def overlap_free_space_root : btrfs_root :=
  ⟨BTRFS_FREE_SPACE_TREE_OBJECTID, 16384,
    [⟨0, BTRFS_FREE_SPACE_INFO_KEY, 100⟩, ⟨0, BTRFS_FREE_SPACE_EXTENT_KEY, 50⟩,
     ⟨60, BTRFS_FREE_SPACE_EXTENT_KEY, 40⟩]⟩

/-- Extent tree: allocated `[50, 100)`. -/
def overlap_extent_root : btrfs_root :=
  ⟨BTRFS_EXTENT_TREE_OBJECTID, 16384, [⟨50, BTRFS_EXTENT_ITEM_KEY, 50⟩]⟩

/-- Free-space tree: block group `[0, 100)` with no free extent. -/
def allocated_only_free_space_root : btrfs_root :=
  ⟨BTRFS_FREE_SPACE_TREE_OBJECTID, 16384, [⟨0, BTRFS_FREE_SPACE_INFO_KEY, 100⟩]⟩

/-- Extent tree: allocated `[0, 100)`. -/
def allocated_only_extent_root : btrfs_root :=
  ⟨BTRFS_EXTENT_TREE_OBJECTID, 16384, [⟨0, BTRFS_EXTENT_ITEM_KEY, 100⟩]⟩

/-- Free-space tree: block groups `[0, 100)` and `[100, 200)`, free `[0, 50)`
and `[100, 200)`. -/
def two_groups_free_space_root : btrfs_root :=
  ⟨BTRFS_FREE_SPACE_TREE_OBJECTID, 16384,
    [⟨0, BTRFS_FREE_SPACE_INFO_KEY, 100⟩, ⟨0, BTRFS_FREE_SPACE_EXTENT_KEY, 50⟩,
     ⟨100, BTRFS_FREE_SPACE_INFO_KEY, 100⟩, ⟨100, BTRFS_FREE_SPACE_EXTENT_KEY, 100⟩]⟩

/-- Extent tree: allocated `[50, 100)`. -/
def two_groups_extent_root : btrfs_root :=
  ⟨BTRFS_EXTENT_TREE_OBJECTID, 16384, [⟨50, BTRFS_EXTENT_ITEM_KEY, 50⟩]⟩

/-- Free-space tree: block group `[0, 100)`, free `[0, 40)`. -/
def gap_free_space_root : btrfs_root :=
  ⟨BTRFS_FREE_SPACE_TREE_OBJECTID, 16384,
    [⟨0, BTRFS_FREE_SPACE_INFO_KEY, 100⟩, ⟨0, BTRFS_FREE_SPACE_EXTENT_KEY, 40⟩]⟩

/-- Extent tree: allocated `[50, 100)`. -/
def gap_extent_root : btrfs_root :=
  ⟨BTRFS_EXTENT_TREE_OBJECTID, 16384, [⟨50, BTRFS_EXTENT_ITEM_KEY, 50⟩]⟩

/-- A root whose registry holds the two trees of the gap image and which has
no successor in the red-black tree. -/
def gap_root_handle : root_handle :=
  { root_key_objectid := 5
    global_root := fun key =>
      if key.objectid = BTRFS_FREE_SPACE_TREE_OBJECTID then some gap_free_space_root
      else if key.objectid = BTRFS_EXTENT_TREE_OBJECTID then some gap_extent_root
      else none
    rb_next := none }

/-- Free-space tree: block group `[0, 100)`, free `[50, 100)`. -/
def gap_mirror_free_space_root : btrfs_root :=
  ⟨BTRFS_FREE_SPACE_TREE_OBJECTID, 16384,
    [⟨0, BTRFS_FREE_SPACE_INFO_KEY, 100⟩, ⟨50, BTRFS_FREE_SPACE_EXTENT_KEY, 50⟩]⟩

/-- Extent tree: allocated `[0, 40)`. -/
def gap_mirror_extent_root : btrfs_root :=
  ⟨BTRFS_EXTENT_TREE_OBJECTID, 16384, [⟨0, BTRFS_EXTENT_ITEM_KEY, 40⟩]⟩

/-- An exhaustion flag is set only when its cursor has nothing ahead. -/
def cursors_consistent (st : walk_state) : Prop :=
  (st.fs_walk_done = true → st.fs_path = []) ∧ (st.e_walk_done = true → st.e_path = [])

/-- The interval that has just been made active: `end` is the end of the
pending interval of the side named by `process`. -/
def active_interval (st : walk_state) : Prop :=
  (st.process = PROCESS_FREE_SPACE_TREE_ELEMENT_FLAG ∧ st.end_ = st.fs_end) ∨
    (st.process = PROCESS_EXTENT_TREE_ELEMENT_FLAG ∧ st.end_ = st.e_end)

/-- What holds of every configuration the walk reaches: the cursors are
consistent, and at the head of the `while (1)` loop the block group is open
(`filled_bg` is 0) and `end` is the end of the active interval. -/
def config_inv : walk_config → Prop
  | .outer st => cursors_consistent st
  | .extend st => cursors_consistent st ∧ st.filled_bg = 0 ∧ active_interval st
  | .exit r => cursors_consistent r.st

/-! ## Further inputs -/

/-- Free-space tree: block group `[0, 100)`, free `[0, 120)`. -/
def overrun_free_space_root : btrfs_root :=
  ⟨BTRFS_FREE_SPACE_TREE_OBJECTID, 16384,
    [⟨0, BTRFS_FREE_SPACE_INFO_KEY, 100⟩, ⟨0, BTRFS_FREE_SPACE_EXTENT_KEY, 120⟩]⟩

/-- An extent tree without entries. -/
def empty_extent_root : btrfs_root := ⟨BTRFS_EXTENT_TREE_OBJECTID, 16384, []⟩

/-- A free-space tree without entries. -/
def empty_free_space_root : btrfs_root := ⟨BTRFS_FREE_SPACE_TREE_OBJECTID, 16384, []⟩

/-- The local variables when the free extent `[0, 120)` has just been made
active in block group `[0, 100)`. -/
def overrun_state : walk_state :=
  { fs_path := []
    e_path := []
    metadata_size := 16384
    fs_walk_done := false
    e_walk_done := true
    process := PROCESS_FREE_SPACE_TREE_ELEMENT_FLAG
    bg_start := 0
    bg_end := 100
    end_ := 120
    fs_start := 0
    fs_end := 120
    e_start := U64_MINUS_ONE
    e_end := U64_MINUS_ONE
    filled_bg := 0 }

/-- Extent tree: allocated `[200, 250)`. -/
def trailing_extent_root : btrfs_root :=
  ⟨BTRFS_EXTENT_TREE_OBJECTID, 16384, [⟨200, BTRFS_EXTENT_ITEM_KEY, 50⟩]⟩

/-- Free-space tree: block group `[0, 100)`, free `[0, 50)`. -/
def half_free_space_root : btrfs_root :=
  ⟨BTRFS_FREE_SPACE_TREE_OBJECTID, 16384,
    [⟨0, BTRFS_FREE_SPACE_INFO_KEY, 100⟩, ⟨0, BTRFS_FREE_SPACE_EXTENT_KEY, 50⟩]⟩

/-- Extent tree: allocated `[50, 75)` and `[75, 100)`. -/
def two_extents_root : btrfs_root :=
  ⟨BTRFS_EXTENT_TREE_OBJECTID, 16384,
    [⟨50, BTRFS_EXTENT_ITEM_KEY, 25⟩, ⟨75, BTRFS_EXTENT_ITEM_KEY, 25⟩]⟩

/-- Free-space tree: block group `[1000, 2000)`, free `[1000, 2000)`. -/
def exact_free_space_root : btrfs_root :=
  ⟨BTRFS_FREE_SPACE_TREE_OBJECTID, 16384,
    [⟨1000, BTRFS_FREE_SPACE_INFO_KEY, 1000⟩, ⟨1000, BTRFS_FREE_SPACE_EXTENT_KEY, 1000⟩]⟩

/-- What `walk_trees` returns 0 with: both exhaustion flags set and `filled_bg`
not 0. -/
def terminal_condition (r : walk_result) : Prop :=
  r.st.fs_walk_done = true ∧ r.st.e_walk_done = true ∧ r.st.filled_bg ≠ 0

/-! ## Inputs for the later claims -/

/-- Free-space tree: block group `[0, 100)` and nothing else. -/
def boundary_only_free_space_root : btrfs_root :=
  ⟨BTRFS_FREE_SPACE_TREE_OBJECTID, 16384, [⟨0, BTRFS_FREE_SPACE_INFO_KEY, 100⟩]⟩

/-- Modelled from the spec: the order in which a cursor delivers the entries of
a tree ("key-ordered traversal"): by `objectid`, then `type`, then `offset`.
The comparison function of the tree code is not among the sources. -/
def key_lt (a b : btrfs_key) : Prop :=
  a.objectid < b.objectid ∨
    (a.objectid = b.objectid ∧ (a.type < b.type ∨ (a.type = b.type ∧ a.offset < b.offset)))

instance (a b : btrfs_key) : Decidable (key_lt a b) := by
  unfold key_lt; infer_instance

/-- A sequence of entries a cursor can deliver: strictly increasing keys. -/
def key_ordered (l : List btrfs_key) : Prop := l.Pairwise key_lt

instance (l : List btrfs_key) : Decidable (key_ordered l) := by
  unfold key_ordered; infer_instance

/-- Free-space tree: block group `[0, 100)`, a key of an unrelated kind (a root
item with object id 10), free `[50, 100)`; in key order. -/
def unrelated_free_space_root : btrfs_root :=
  ⟨BTRFS_FREE_SPACE_TREE_OBJECTID, 16384,
    [⟨0, BTRFS_FREE_SPACE_INFO_KEY, 100⟩, ⟨10, BTRFS_ROOT_ITEM_KEY, 0⟩,
     ⟨50, BTRFS_FREE_SPACE_EXTENT_KEY, 50⟩]⟩

/-- Free-space tree: block group `[0, 100)`, a bitmap key for `[0, 50)`, free
`[50, 100)`; in key order. -/
def bitmap_free_space_root : btrfs_root :=
  ⟨BTRFS_FREE_SPACE_TREE_OBJECTID, 16384,
    [⟨0, BTRFS_FREE_SPACE_INFO_KEY, 100⟩, ⟨0, BTRFS_FREE_SPACE_BITMAP_KEY, 50⟩,
     ⟨50, BTRFS_FREE_SPACE_EXTENT_KEY, 50⟩]⟩

/-- The free-space sequence with every key that is neither `FREE_SPACE_INFO`
nor `FREE_SPACE_EXTENT` deleted. -/
def free_space_related (fs : List btrfs_key) : List btrfs_key :=
  fs.filter (fun k =>
    decide (k.type = BTRFS_FREE_SPACE_INFO_KEY ∨ k.type = BTRFS_FREE_SPACE_EXTENT_KEY))

/-- A tree that is neither of the two sought: object id 7, no entries. -/
def neighbour_root : btrfs_root := ⟨7, 16384, []⟩

/-- A root with object id 5 whose registry holds neither tree and whose
successor in the red-black tree is `neighbour_root`. -/
def orphan_root_handle : root_handle :=
  { root_key_objectid := 5
    global_root := fun _ => none
    rb_next := some neighbour_root }

/-- A root with object id 5 whose registry holds the two trees of the gap image
and whose successor in the red-black tree is `neighbour_root`. -/
def gap_neighbour_root_handle : root_handle :=
  { root_key_objectid := 5
    global_root := gap_root_handle.global_root
    rb_next := some neighbour_root }

/-- The free-space root itself (object id 10) with a successor in the red-black
tree. -/
def looping_root_handle : root_handle :=
  { root_key_objectid := BTRFS_FREE_SPACE_TREE_OBJECTID
    global_root := gap_root_handle.global_root
    rb_next := some neighbour_root }

/-- Free-space tree: block group `[100, 200)`, free `[50, 60)`. -/
def early_free_space_root : btrfs_root :=
  ⟨BTRFS_FREE_SPACE_TREE_OBJECTID, 16384,
    [⟨100, BTRFS_FREE_SPACE_INFO_KEY, 100⟩, ⟨50, BTRFS_FREE_SPACE_EXTENT_KEY, 10⟩]⟩

/-- Free-space tree: block group `[0, 100)`, the zero-length free extent
`[0, 0)`. -/
def zero_length_free_space_root : btrfs_root :=
  ⟨BTRFS_FREE_SPACE_TREE_OBJECTID, 16384,
    [⟨0, BTRFS_FREE_SPACE_INFO_KEY, 100⟩, ⟨0, BTRFS_FREE_SPACE_EXTENT_KEY, 0⟩]⟩

/-- The local variables of the walk over `zero_length_free_space_root` and an
empty extent tree from the second round of the `while (1)` loop on. -/
def zero_length_state : walk_state :=
  { fs_path := []
    e_path := []
    metadata_size := 16384
    fs_walk_done := true
    e_walk_done := true
    process := PROCESS_FREE_SPACE_TREE_ELEMENT_FLAG
    bg_start := 0
    bg_end := 100
    end_ := 0
    fs_start := 0
    fs_end := 0
    e_start := U64_MINUS_ONE
    e_end := U64_MINUS_ONE
    filled_bg := 0 }

/-! ## The two sides of the walk -/

/-- The free-space side: cursor position, exhaustion flag, pending interval. -/
def fs_side (st : walk_state) : List btrfs_key × Bool × Nat × Nat :=
  (st.fs_path, st.fs_walk_done, st.fs_start, st.fs_end)

/-- The extent side: cursor position, exhaustion flag, pending interval. -/
def e_side (st : walk_state) : List btrfs_key × Bool × Nat × Nat :=
  (st.e_path, st.e_walk_done, st.e_start, st.e_end)

/-- A key the extent decoder decodes to an interval. -/
def is_extent_key (k : btrfs_key) : Bool :=
  decide (k.type = BTRFS_EXTENT_ITEM_KEY ∨ k.type = BTRFS_METADATA_ITEM_KEY)

/-- Free-space tree: block group `[0, 100)`, free `[50, 100)`, then block group
`[100, 200)`. -/
def second_half_free_space_root : btrfs_root :=
  ⟨BTRFS_FREE_SPACE_TREE_OBJECTID, 16384,
    [⟨0, BTRFS_FREE_SPACE_INFO_KEY, 100⟩, ⟨50, BTRFS_FREE_SPACE_EXTENT_KEY, 50⟩,
     ⟨100, BTRFS_FREE_SPACE_INFO_KEY, 100⟩]⟩

/-- Extent tree: allocated `[0, 50)`, a root item key, allocated `[100, 200)`. -/
def mixed_extent_root : btrfs_root :=
  ⟨BTRFS_EXTENT_TREE_OBJECTID, 16384,
    [⟨0, BTRFS_EXTENT_ITEM_KEY, 50⟩, ⟨7, BTRFS_ROOT_ITEM_KEY, 0⟩,
     ⟨100, BTRFS_EXTENT_ITEM_KEY, 100⟩]⟩

/-! ## The extent sequence without the entries the decoder skips -/

/-- The extent sequence with every key that is neither `EXTENT_ITEM` nor
`METADATA_ITEM` deleted. -/
def extent_related (e : List btrfs_key) : List btrfs_key := e.filter is_extent_key

/-- The local variables with the skipped entries deleted from what lies ahead
of the extent cursor. -/
def strip_state (st : walk_state) : walk_state :=
  { st with e_path := extent_related st.e_path }

/-- A result with the skipped entries deleted from what lies ahead of the
extent cursor; the value returned and the line printed are untouched. -/
def strip_result (r : walk_result) : walk_result :=
  { r with st := strip_state r.st }

/-- A configuration with the skipped entries deleted from what lies ahead of
the extent cursor. -/
def strip_config : walk_config → walk_config
  | .outer st => .outer (strip_state st)
  | .extend st => .extend (strip_state st)
  | .exit r => .exit (strip_result r)

/-! ## Well-formed intervals and termination -/

/-- A `FREE_SPACE_EXTENT` key is decoded to an interval with `start < end`. -/
def fs_key_wf (k : btrfs_key) : Prop :=
  k.type = BTRFS_FREE_SPACE_EXTENT_KEY →
    (process_free_space_extent k 0 0).2.1 < (process_free_space_extent k 0 0).2.2

/-- An `EXTENT_ITEM` or `METADATA_ITEM` key is decoded to an interval with
`start < end`. -/
def e_key_wf (metadata_size : Nat) (k : btrfs_key) : Prop :=
  (process_extent k 0 0 metadata_size).1 ≠ 0 →
    (process_extent k 0 0 metadata_size).2.1 < (process_extent k 0 0 metadata_size).2.2

/-- Each pending interval is either the initial `(u64)-1` or has
`start < end`, `bg_end` is a `u64`, and the entries ahead of both cursors are
well-formed. -/
def pending_wf (st : walk_state) : Prop :=
  (st.fs_start < st.fs_end ∨ st.fs_start = U64_MINUS_ONE) ∧
  (st.e_start < st.e_end ∨ st.e_start = U64_MINUS_ONE) ∧
  st.bg_end ≤ U64_MINUS_ONE ∧
  (∀ k ∈ st.fs_path, fs_key_wf k) ∧
  (∀ k ∈ st.e_path, e_key_wf st.metadata_size k)

/-- The number of free-space entries ahead, plus one while the cursor has not
reported exhaustion. -/
def fs_potential (st : walk_state) : Nat :=
  st.fs_path.length + (if st.fs_walk_done then 0 else 1)

/-- The walk started in configuration `c` returns, with 0 or -1. -/
def terminates (c : walk_config) : Prop :=
  ∃ fuel r, walk_run fuel c = some r ∧ (r.ret = 0 ∨ r.ret = -1)

/-- The invariant `pending_wf` on configurations not past the return. -/
def config_wf : walk_config → Prop
  | .outer st => pending_wf st
  | .extend st => pending_wf st
  | .exit _ => True

/-- Free-space tree: block group `[0, 100)`, free `[50, 100)`. -/
def well_formed_free_space_root : btrfs_root :=
  ⟨BTRFS_FREE_SPACE_TREE_OBJECTID, 16384,
    [⟨0, BTRFS_FREE_SPACE_INFO_KEY, 100⟩, ⟨50, BTRFS_FREE_SPACE_EXTENT_KEY, 50⟩]⟩

/-- Extent tree: allocated `[0, 50)`. -/
def well_formed_extent_root : btrfs_root :=
  ⟨BTRFS_EXTENT_TREE_OBJECTID, 16384, [⟨0, BTRFS_EXTENT_ITEM_KEY, 50⟩]⟩

/-! ## The extent last fetched and not yet made active -/

theorem walk_run_succ (n : Nat) (c : walk_config) :
    walk_run (n + 1) c = walk_run n (walk_step c) := by
  cases c <;> cases n <;> simp [walk_run, walk_step]

theorem walk_run_add (k n : Nat) (c : walk_config) :
    walk_run (k + n) c = walk_run k (walk_iter n c) := by
  induction n generalizing c with
  | zero => simp [walk_iter]
  | succ n ih => rw [← Nat.add_assoc, walk_run_succ, ih, walk_iter]

theorem walk_run_exit (k : Nat) (r : walk_result) : walk_run k (.exit r) = some r := by
  cases k <;> simp [walk_run]

/-- Once `n` transitions reach the return, every budget of at least `n`
transitions yields that result. -/
theorem walk_run_of_iter {n : Nat} {c : walk_config} {r : walk_result}
    (h : walk_iter n c = .exit r) (k : Nat) : walk_run (k + n) c = some r := by
  rw [walk_run_add, h, walk_run_exit]

/-- A larger budget does not change a result already reached. -/
theorem walk_run_mono {n m : Nat} {c : walk_config} {r : walk_result}
    (h : walk_run n c = some r) (hnm : n ≤ m) : walk_run m c = some r := by
  induction n generalizing c m with
  | zero =>
    cases c with
    | exit r0 => rw [walk_run_exit] at h ⊢; exact h
    | outer st => simp [walk_run] at h
    | extend st => simp [walk_run] at h
  | succ n ih =>
    obtain ⟨m, rfl⟩ : ∃ m0, m = m0 + 1 := ⟨m - 1, by omega⟩
    rw [walk_run_succ] at h ⊢
    exact ih h (by omega)

/-- When both roots are resolved and the walk returns, the entry point returns
0 whatever the walk returned. -/
theorem check_block_group_overlap_of_walk {fuel : Nat} {root : root_handle}
    {free_space_root extent_root : btrfs_root} {r : walk_result}
    (hf : get_free_space_root fuel root = some (some free_space_root))
    (he : get_extent_root fuel root = some (some extent_root))
    (hw : walk_trees fuel free_space_root extent_root = some r) :
    check_block_group_overlap fuel root = some 0 := by
  simp [check_block_group_overlap, hf, he, hw]

theorem walk_iter_succ (n : Nat) (c : walk_config) :
    walk_iter (n + 1) c = walk_step (walk_iter n c) := by
  induction n generalizing c with
  | zero => rfl
  | succ n ih => rw [walk_iter, ih, ← walk_iter]

/-! ## What the seeks change -/

/-- The free-space seek writes only the free-space cursor, its exhaustion
flag and the pending free-space interval. -/
theorem free_space_seek_loop_frame (st : walk_state) (l : List btrfs_key) :
    ∃ p d s e, free_space_seek_loop st l
      = { st with fs_path := p, fs_walk_done := d, fs_start := s, fs_end := e } := by
  cases l with
  | nil => exact ⟨[], true, st.fs_start, st.fs_end, rfl⟩
  | cons k rest =>
    refine ⟨rest, st.fs_walk_done, (process_free_space_extent k st.fs_start st.fs_end).2.1,
      (process_free_space_extent k st.fs_start st.fs_end).2.2, ?_⟩
    simp only [free_space_seek_loop]
    rw [if_pos]
    simp only [process_free_space_extent]
    split_ifs <;> simp

theorem seek_free_space_frame (st : walk_state) :
    ∃ p d s e, seek_free_space st
      = { st with fs_path := p, fs_walk_done := d, fs_start := s, fs_end := e } := by
  unfold seek_free_space
  split_ifs
  · exact ⟨st.fs_path, st.fs_walk_done, st.fs_start, st.fs_end, rfl⟩
  · exact free_space_seek_loop_frame st st.fs_path

/-- The extent seek writes only the extent cursor, its exhaustion flag and the
pending extent interval. -/
theorem extent_seek_loop_frame (st : walk_state) (l : List btrfs_key) :
    ∃ p d s e, extent_seek_loop st l
      = { st with e_path := p, e_walk_done := d, e_start := s, e_end := e } := by
  induction l generalizing st with
  | nil => exact ⟨[], true, st.e_start, st.e_end, rfl⟩
  | cons k rest ih =>
    simp only [extent_seek_loop]
    split_ifs
    · exact ⟨rest, st.e_walk_done, _, _, rfl⟩
    · obtain ⟨p, d, s, e, h⟩ := ih (walk_state.mk st.fs_path rest st.metadata_size
        st.fs_walk_done st.e_walk_done st.process st.bg_start st.bg_end st.end_ st.fs_start
        st.fs_end (process_extent k st.e_start st.e_end st.metadata_size).2.1
        (process_extent k st.e_start st.e_end st.metadata_size).2.2 st.filled_bg)
      exact ⟨p, d, s, e, by rw [h]⟩

theorem seek_extent_frame (st : walk_state) :
    ∃ p d s e, seek_extent st
      = { st with e_path := p, e_walk_done := d, e_start := s, e_end := e } := by
  unfold seek_extent
  split_ifs
  · exact ⟨st.e_path, st.e_walk_done, st.e_start, st.e_end, rfl⟩
  · exact extent_seek_loop_frame st st.e_path

/-- A key the extent decoder does not decode. -/
theorem process_extent_skip {k : btrfs_key} (h1 : k.type ≠ BTRFS_EXTENT_ITEM_KEY)
    (h2 : k.type ≠ BTRFS_METADATA_ITEM_KEY) (s e m : Nat) :
    process_extent k s e m = (0, s, e) := by
  simp [process_extent, h1, h2]

/-- A key the extent decoder decodes. -/
theorem process_extent_fst_ne_zero {k : btrfs_key}
    (h : k.type = BTRFS_EXTENT_ITEM_KEY ∨ k.type = BTRFS_METADATA_ITEM_KEY) (s e m : Nat) :
    (process_extent k s e m).1 ≠ 0 := by
  unfold process_extent
  rcases h with h | h
  · simp [h]
  · split_ifs <;> simp

/-- Over entries none of which is an extent, the extent seek runs to the end
of the cursor and reports exhaustion, leaving the pending interval alone. -/
theorem extent_seek_loop_skip (st : walk_state) (l : List btrfs_key)
    (h : ∀ k ∈ l, k.type ≠ BTRFS_EXTENT_ITEM_KEY ∧ k.type ≠ BTRFS_METADATA_ITEM_KEY) :
    extent_seek_loop st l = { st with e_path := [], e_walk_done := true } := by
  induction l generalizing st with
  | nil => rfl
  | cons k rest ih =>
    have hk := h k (List.mem_cons_self _ _)
    simp only [extent_seek_loop, process_extent_skip hk.1 hk.2]
    simp only [ne_eq, not_true_eq_false, if_false]
    rw [ih _ (fun k1 hk1 => h k1 (List.mem_cons_of_mem _ hk1))]

/-- Over entries one of which is an extent, the extent seek stops at an entry
and does not report exhaustion. -/
theorem extent_seek_loop_found (st : walk_state) (l : List btrfs_key)
    (hd : st.e_walk_done = false)
    (h : ∃ k ∈ l, k.type = BTRFS_EXTENT_ITEM_KEY ∨ k.type = BTRFS_METADATA_ITEM_KEY) :
    (extent_seek_loop st l).e_walk_done = false := by
  induction l generalizing st with
  | nil => simp at h
  | cons k rest ih =>
    simp only [extent_seek_loop]
    split_ifs with hr
    · exact hd
    · refine ih _ hd ?_
      obtain ⟨k1, hk1, hty⟩ := h
      rcases List.mem_cons.1 hk1 with rfl | hmem
      · exact absurd (process_extent_fst_ne_zero hty _ _ _) hr
      · exact ⟨k1, hmem, hty⟩

/-- The fields the free-space seek leaves alone. -/
theorem seek_free_space_keeps (st : walk_state) :
    (seek_free_space st).e_path = st.e_path ∧
    (seek_free_space st).e_walk_done = st.e_walk_done ∧
    (seek_free_space st).e_start = st.e_start ∧
    (seek_free_space st).e_end = st.e_end ∧
    (seek_free_space st).metadata_size = st.metadata_size ∧
    (seek_free_space st).process = st.process ∧
    (seek_free_space st).bg_start = st.bg_start ∧
    (seek_free_space st).bg_end = st.bg_end ∧
    (seek_free_space st).end_ = st.end_ ∧
    (seek_free_space st).filled_bg = st.filled_bg := by
  obtain ⟨p, d, s, e, h⟩ := seek_free_space_frame st
  simp [h]

/-- The fields the extent seek leaves alone. -/
theorem seek_extent_keeps (st : walk_state) :
    (seek_extent st).fs_path = st.fs_path ∧
    (seek_extent st).fs_walk_done = st.fs_walk_done ∧
    (seek_extent st).fs_start = st.fs_start ∧
    (seek_extent st).fs_end = st.fs_end ∧
    (seek_extent st).metadata_size = st.metadata_size ∧
    (seek_extent st).process = st.process ∧
    (seek_extent st).bg_start = st.bg_start ∧
    (seek_extent st).bg_end = st.bg_end ∧
    (seek_extent st).end_ = st.end_ ∧
    (seek_extent st).filled_bg = st.filled_bg := by
  obtain ⟨p, d, s, e, h⟩ := seek_extent_frame st
  simp [h]

/-- After the free-space seek the flag is set only at the end of the cursor,
and a flag already set stays set. -/
theorem seek_free_space_done (st : walk_state)
    (h : st.fs_walk_done = true → st.fs_path = []) :
    ((seek_free_space st).fs_walk_done = true → (seek_free_space st).fs_path = []) ∧
    (st.fs_walk_done = true → (seek_free_space st).fs_walk_done = true) := by
  unfold seek_free_space
  by_cases hd : st.fs_walk_done = true
  · simp [hd, h hd]
  · simp only [hd, if_false, false_implies, and_true, Bool.false_eq_true]
    obtain ⟨p, d, s, e, hfr⟩ := free_space_seek_loop_frame st st.fs_path
    cases hl : st.fs_path with
    | nil => simp [free_space_seek_loop]
    | cons k rest =>
      simp only [free_space_seek_loop]
      split_ifs <;> simp [hd]
      · simp [process_free_space_extent] at *
        split_ifs at * <;> simp_all

theorem extent_seek_loop_done (st : walk_state) (l : List btrfs_key)
    (hd : st.e_walk_done = false) :
    (extent_seek_loop st l).e_walk_done = true → (extent_seek_loop st l).e_path = [] := by
  induction l generalizing st with
  | nil => simp [extent_seek_loop]
  | cons k rest ih =>
    simp only [extent_seek_loop]
    split_ifs
    · simp [hd]
    · exact ih _ hd

/-- After the extent seek the flag is set only at the end of the cursor, and a
flag already set stays set. -/
theorem seek_extent_done (st : walk_state)
    (h : st.e_walk_done = true → st.e_path = []) :
    ((seek_extent st).e_walk_done = true → (seek_extent st).e_path = []) ∧
    (st.e_walk_done = true → (seek_extent st).e_walk_done = true) := by
  unfold seek_extent
  by_cases hd : st.e_walk_done = true
  · simp [hd, h hd]
  · simp only [hd, if_false, false_implies, and_true, Bool.false_eq_true]
    exact extent_seek_loop_done st st.e_path (by simpa using hd)

/-- The fields step 2 leaves alone. -/
theorem seek_initial_keeps (st : walk_state) :
    (seek_initial st).metadata_size = st.metadata_size ∧
    (seek_initial st).process = st.process ∧
    (seek_initial st).bg_start = st.bg_start ∧
    (seek_initial st).bg_end = st.bg_end ∧
    (seek_initial st).end_ = st.end_ ∧
    (seek_initial st).filled_bg = st.filled_bg := by
  have hf := seek_free_space_keeps st
  have he := seek_extent_keeps st
  have hfe := seek_extent_keeps (seek_free_space st)
  by_cases h1 : st.process &&& PROCESS_FREE_SPACE_TREE_ELEMENT_FLAG = 0 <;>
    by_cases h2 : st.process &&& PROCESS_EXTENT_TREE_ELEMENT_FLAG = 0 <;>
    simp [seek_initial, h1, h2, hf, he, hfe]

/-- Step 2 keeps the cursors consistent and never clears an exhaustion flag. -/
theorem seek_initial_done (st : walk_state) (h : cursors_consistent st) :
    cursors_consistent (seek_initial st) ∧
    (st.fs_walk_done = true → (seek_initial st).fs_walk_done = true) ∧
    (st.e_walk_done = true → (seek_initial st).e_walk_done = true) := by
  unfold cursors_consistent
  have hf := seek_free_space_keeps st
  have hfd := seek_free_space_done st h.1
  have he := seek_extent_keeps st
  have hed := seek_extent_done st h.2
  have hfe := seek_extent_keeps (seek_free_space st)
  have hfed := seek_extent_done (seek_free_space st) (by rw [hf.1, hf.2.1]; exact h.2)
  obtain ⟨h1, h2⟩ := h
  by_cases h3 : st.process &&& PROCESS_FREE_SPACE_TREE_ELEMENT_FLAG = 0 <;>
    by_cases h4 : st.process &&& PROCESS_EXTENT_TREE_ELEMENT_FLAG = 0 <;>
    simp [seek_initial, h3, h4] <;> simp_all

/-- The fields the seek of the `while (1)` loop leaves alone. -/
theorem seek_active_keeps (st : walk_state) :
    (seek_active st).metadata_size = st.metadata_size ∧
    (seek_active st).process = st.process ∧
    (seek_active st).bg_start = st.bg_start ∧
    (seek_active st).bg_end = st.bg_end ∧
    (seek_active st).end_ = st.end_ ∧
    (seek_active st).filled_bg = st.filled_bg := by
  unfold seek_active
  have hf := seek_free_space_keeps st
  have he := seek_extent_keeps st
  split_ifs <;> simp [hf, he]

/-- The seek of the `while (1)` loop keeps the cursors consistent and never
clears an exhaustion flag. -/
theorem seek_active_done (st : walk_state) (h : cursors_consistent st) :
    cursors_consistent (seek_active st) ∧
    (st.fs_walk_done = true → (seek_active st).fs_walk_done = true) ∧
    (st.e_walk_done = true → (seek_active st).e_walk_done = true) := by
  unfold seek_active cursors_consistent
  have hf := seek_free_space_keeps st
  have hfd := seek_free_space_done st h.1
  have he := seek_extent_keeps st
  have hed := seek_extent_done st h.2
  obtain ⟨h1, h2⟩ := h
  split_ifs <;> simp_all

/-- Step 1 when it does not fail: the cursors stay consistent, the extent side
is untouched, and unless the free-space cursor is exhausted a block group has
been opened (`filled_bg` is 0). -/
theorem seek_boundary_ok {st st1 : walk_state} (h : seek_boundary st = .ok st1)
    (hc : cursors_consistent st) :
    cursors_consistent st1 ∧ st1.e_walk_done = st.e_walk_done ∧ st1.e_path = st.e_path ∧
    st1.process = st.process ∧
    (st.fs_walk_done = true → st1.fs_walk_done = true) ∧
    (st1.fs_walk_done = false → st1.filled_bg = 0) := by
  unfold seek_boundary at h
  unfold cursors_consistent at hc ⊢
  obtain ⟨h1, h2⟩ := hc
  by_cases hd : st.fs_walk_done = true
  · simp only [hd, if_true, Except.ok.injEq] at h
    subst h
    simp_all
  · simp only [hd, if_false, Bool.false_eq_true] at h
    cases hl : st.fs_path with
    | nil =>
      simp only [hl, next_element, Except.ok.injEq] at h
      subst h
      simp_all
    | cons k rest =>
      simp only [hl, next_element] at h
      split_ifs at h
      · simp only [Except.ok.injEq] at h
        subst h
        simp_all

/-- Step 1 when it fails: the cursors stay consistent. -/
theorem seek_boundary_error {st st1 : walk_state} (h : seek_boundary st = .error st1)
    (hc : cursors_consistent st) : cursors_consistent st1 := by
  unfold seek_boundary at h
  unfold cursors_consistent at hc ⊢
  obtain ⟨h1, h2⟩ := hc
  by_cases hd : st.fs_walk_done = true
  · simp [hd] at h
  · simp only [hd, if_false, Bool.false_eq_true] at h
    cases hl : st.fs_path with
    | nil => simp [hl, next_element] at h
    | cons k rest =>
      simp only [hl, next_element] at h
      split_ifs at h
      · simp only [Except.error.injEq] at h
        subst h
        simp_all

/-! ## The invariant is kept by every transition -/

theorem final_check_inv (st : walk_state) (hc : cursors_consistent st) :
    config_inv (final_check st) := by
  unfold final_check
  split_ifs <;> exact hc

theorem start_rule_inv (st : walk_state) (hc : cursors_consistent st)
    (hf : st.fs_walk_done = false → st.filled_bg = 0) : config_inv (start_rule st) := by
  unfold start_rule
  split_ifs with h1 h2 h3 h4 h5 h6
  · exact hc
  · exact final_check_inv st hc
  · exact hc
  · exact hc
  · exact ⟨hc, hf (by simpa using h1), Or.inl ⟨rfl, rfl⟩⟩
  · exact ⟨hc, hf (by simpa using h1), Or.inr ⟨rfl, rfl⟩⟩
  · exact hc

theorem outer_step_inv (st : walk_state) (hc : cursors_consistent st) :
    config_inv (outer_step st) := by
  unfold outer_step
  split_ifs with hcond
  · cases hb : seek_boundary st with
    | error st1 => exact seek_boundary_error hb hc
    | ok st1 =>
      obtain ⟨hc1, -, -, -, -, hopen⟩ := seek_boundary_ok hb hc
      obtain ⟨hc3, hmono, -⟩ := seek_initial_done st1 hc1
      refine start_rule_inv _ hc3 (fun h3 => ?_)
      rw [(seek_initial_keeps st1).2.2.2.2.2]
      apply hopen
      cases h1 : st1.fs_walk_done with
      | false => rfl
      | true => rw [hmono h1] at h3; exact absurd h3 (by simp)
  · exact final_check_inv st hc

theorem extend_step_inv (st : walk_state) (hc : cursors_consistent st)
    (hopen : st.filled_bg = 0) : config_inv (extend_step st) := by
  have hk := seek_active_keeps st
  have hc1 := (seek_active_done st hc).1
  simp only [extend_step]
  split_ifs
  · exact hc
  · exact hc
  · exact ⟨hc1, by simpa [hk.2.2.2.2.2] using hopen, Or.inl ⟨rfl, rfl⟩⟩
  · exact ⟨hc1, by simpa [hk.2.2.2.2.2] using hopen, Or.inr ⟨rfl, rfl⟩⟩
  · exact hc1

theorem walk_step_inv (c : walk_config) (h : config_inv c) : config_inv (walk_step c) := by
  cases c with
  | outer st => exact outer_step_inv st h
  | extend st => exact extend_step_inv st h.1 h.2.1
  | exit r => exact h

theorem walk_iter_inv (n : Nat) (c : walk_config) (h : config_inv c) :
    config_inv (walk_iter n c) := by
  induction n generalizing c with
  | zero => exact h
  | succ n ih => exact ih _ (walk_step_inv c h)

theorem walk_init_inv (free_space_root extent_root : btrfs_root) :
    config_inv (.outer (walk_init free_space_root extent_root)) := by
  simp [config_inv, cursors_consistent, walk_init]

/-- Every configuration the walk reaches satisfies the invariant. -/
theorem reachable_inv (free_space_root extent_root : btrfs_root) (n : Nat) :
    config_inv (walk_iter n (.outer (walk_init free_space_root extent_root))) :=
  walk_iter_inv n _ (walk_init_inv free_space_root extent_root)

/-! ## Returning 0 -/

theorem final_check_ret_zero {st : walk_state} {r : walk_result}
    (h : final_check st = .exit r) (h0 : r.ret = 0) : r.st = st ∧ st.filled_bg ≠ 0 := by
  unfold final_check at h
  split_ifs at h with hf
  · simp only [walk_config.exit.injEq] at h
    subst h
    simp at h0
  · simp only [walk_config.exit.injEq] at h
    subst h
    exact ⟨rfl, hf⟩

theorem start_rule_ret_zero {st : walk_state} {r : walk_result}
    (h : start_rule st = .exit r) (h0 : r.ret = 0) : terminal_condition r := by
  unfold start_rule at h
  split_ifs at h with h1 h2 <;>
    first
    | (simp only [walk_config.exit.injEq] at h; subst h; simp at h0)
    | skip
  obtain ⟨hst, hfill⟩ := final_check_ret_zero h h0
  refine ⟨by rw [hst]; exact h1, ?_, by rw [hst]; exact hfill⟩
  rw [hst]
  simpa using h2

theorem outer_step_ret_zero {st : walk_state} {r : walk_result}
    (h : outer_step st = .exit r) (h0 : r.ret = 0) : terminal_condition r := by
  unfold outer_step at h
  split_ifs at h with hcond
  · cases hb : seek_boundary st with
    | error st1 =>
      simp only [hb, walk_config.exit.injEq] at h
      subst h
      simp at h0
    | ok st1 =>
      simp only [hb] at h
      exact start_rule_ret_zero h h0
  · obtain ⟨hst, hfill⟩ := final_check_ret_zero h h0
    simp only [Bool.or_eq_true, Bool.not_eq_eq_eq_not, Bool.not_true, not_or,
      Bool.not_eq_false] at hcond
    exact ⟨by rw [hst]; exact hcond.1, by rw [hst]; exact hcond.2, by rw [hst]; exact hfill⟩

theorem extend_step_ret_ne_zero {st : walk_state} {r : walk_result}
    (h : extend_step st = .exit r) : r.ret ≠ 0 := by
  simp only [extend_step] at h
  split_ifs at h <;> simp only [walk_config.exit.injEq] at h <;> subst h <;> simp

/-- A run that starts anywhere but past the return and returns 0 ends with the
terminal condition. -/
theorem walk_run_ret_zero (fuel : Nat) (c : walk_config) (r : walk_result)
    (hc : ∀ r0, c = .exit r0 → r0.ret = 0 → terminal_condition r0)
    (h : walk_run fuel c = some r) (h0 : r.ret = 0) : terminal_condition r := by
  induction fuel generalizing c with
  | zero =>
    cases c with
    | exit r0 =>
      simp only [walk_run, Option.some.injEq] at h
      exact hc r (by rw [h]) h0
    | outer st => simp [walk_run] at h
    | extend st => simp [walk_run] at h
  | succ n ih =>
    rw [walk_run_succ] at h
    refine ih (walk_step c) (fun r0 hr0 hz => ?_) h
    cases c with
    | exit r1 => exact hc r0 hr0 hz
    | outer st => exact outer_step_ret_zero hr0 hz
    | extend st => exact absurd hz (extend_step_ret_ne_zero hr0)

/-! ## One outer iteration -/

/-- Step 2 does nothing once both cursors are exhausted. -/
theorem seek_initial_of_done {st : walk_state} (hf : st.fs_walk_done = true)
    (he : st.e_walk_done = true) : seek_initial st = st := by
  by_cases h1 : st.process &&& PROCESS_FREE_SPACE_TREE_ELEMENT_FLAG = 0 <;>
    by_cases h2 : st.process &&& PROCESS_EXTENT_TREE_ELEMENT_FLAG = 0 <;>
    simp [seek_initial, seek_free_space, seek_extent, h1, h2, hf, he]

/-- Step 1 does nothing once the free-space cursor is exhausted. -/
theorem seek_boundary_of_done {st : walk_state} (hf : st.fs_walk_done = true) :
    seek_boundary st = .ok st := by
  simp [seek_boundary, hf]

/-- An outer iteration whose step 1 does not fail is the start rule applied to
the state the seeks leave; when the loop condition is false the seeks change
nothing and the start rule goes to the final check. -/
theorem outer_step_of_ok {st st1 : walk_state} (hb : seek_boundary st = .ok st1) :
    outer_step st = start_rule (seek_initial st1) := by
  unfold outer_step
  split_ifs with hcond
  · simp [hb]
  · simp only [Bool.or_eq_true, Bool.not_eq_eq_eq_not, Bool.not_true, not_or,
      Bool.not_eq_false] at hcond
    rw [seek_boundary_of_done hcond.1] at hb
    simp only [Except.ok.injEq] at hb
    subst hb
    rw [seek_initial_of_done hcond.1 hcond.2]
    simp [start_rule, hcond.1, hcond.2]

/-- When the configuration reached after `n` transitions returns at the next
transition, every budget of at least `n + 1` transitions yields that result. -/
theorem walk_trees_of_reach {free_space_root extent_root : btrfs_root} {n : Nat}
    {c : walk_config} {r : walk_result}
    (hreach : walk_iter n (.outer (walk_init free_space_root extent_root)) = c)
    (hstep : walk_step c = .exit r) (fuel : Nat) :
    walk_trees (fuel + (n + 1)) free_space_root extent_root = some r := by
  refine walk_run_of_iter ?_ fuel
  rw [walk_iter_succ, hreach, hstep]

/-- A configuration that a transition maps to itself and that is not past the
return is never left: no budget yields a result. -/
theorem walk_run_of_fixed {c : walk_config} (hfix : walk_step c = c)
    (hne : ∀ r, c ≠ .exit r) (fuel : Nat) : walk_run fuel c = none := by
  induction fuel with
  | zero =>
    cases c with
    | exit r => exact absurd rfl (hne r)
    | outer st => rfl
    | extend st => rfl
  | succ n ih => rw [walk_run_succ, hfix, ih]

/-- The loop of `get_free_space_root` is never left when the root passed in has
the free-space tree's object id and a successor in the red-black tree. -/
theorem get_free_space_root_loop_none {root : root_handle} {x : btrfs_root}
    (h1 : root.rb_next = some x)
    (h2 : root.root_key_objectid = BTRFS_FREE_SPACE_TREE_OBJECTID) (n : Nat)
    (cur : Option btrfs_root) : get_free_space_root_loop root 0 n cur = none := by
  induction n generalizing cur with
  | zero => rfl
  | succ n ih => simp [get_free_space_root_loop, h1, h2, ih]

/-! ## Which side a seek advances -/

theorem process_free_space_extent_fst (k : btrfs_key) (s e : Nat) :
    (process_free_space_extent k s e).1 = 1 := by
  unfold process_free_space_extent
  split_ifs <;> rfl

theorem seek_free_space_e_side (st : walk_state) : e_side (seek_free_space st) = e_side st := by
  have h := seek_free_space_keeps st
  simp [e_side, h]

theorem seek_extent_fs_side (st : walk_state) : fs_side (seek_extent st) = fs_side st := by
  have h := seek_extent_keeps st
  simp [fs_side, h]

/-- The free-space seek moves its cursor over at most one entry. -/
theorem seek_free_space_advance (st : walk_state) :
    ∃ taken : List btrfs_key, taken.length ≤ 1 ∧
      st.fs_path = taken ++ (seek_free_space st).fs_path := by
  unfold seek_free_space
  split_ifs
  · exact ⟨[], by simp, rfl⟩
  · cases hl : st.fs_path with
    | nil => exact ⟨[], by simp, by simp [free_space_seek_loop]⟩
    | cons k rest =>
      refine ⟨[k], by simp, ?_⟩
      simp [free_space_seek_loop, process_free_space_extent_fst]

theorem process_extent_fst_eq_zero_iff (k : btrfs_key) (s e m : Nat) :
    (process_extent k s e m).1 = 0 ↔ is_extent_key k = false := by
  unfold process_extent is_extent_key
  have hne : ¬ BTRFS_METADATA_ITEM_KEY = BTRFS_EXTENT_ITEM_KEY := by decide
  by_cases h1 : k.type = BTRFS_EXTENT_ITEM_KEY <;>
    by_cases h2 : k.type = BTRFS_METADATA_ITEM_KEY <;> simp [h1, h2, hne]

theorem extent_seek_loop_advance (st : walk_state) (l : List btrfs_key) :
    ∃ skipped taken : List btrfs_key, taken.length ≤ 1 ∧
      (∀ k ∈ skipped, is_extent_key k = false) ∧ (∀ k ∈ taken, is_extent_key k = true) ∧
      l = skipped ++ taken ++ (extent_seek_loop st l).e_path := by
  induction l generalizing st with
  | nil => exact ⟨[], [], by simp, by simp, by simp, by simp [extent_seek_loop]⟩
  | cons k rest ih =>
    simp only [extent_seek_loop]
    split_ifs with hr
    · refine ⟨[], [k], by simp, by simp, ?_, by simp⟩
      intro k1 hk1
      rw [List.mem_singleton.1 hk1]
      cases hk : is_extent_key k with
      | true => rfl
      | false => exact absurd ((process_extent_fst_eq_zero_iff k _ _ _).2 hk) hr
    · obtain ⟨skipped, taken, h1, h2, h3, h4⟩ := ih (walk_state.mk st.fs_path rest
        st.metadata_size st.fs_walk_done st.e_walk_done st.process st.bg_start st.bg_end
        st.end_ st.fs_start st.fs_end (process_extent k st.e_start st.e_end st.metadata_size).2.1
        (process_extent k st.e_start st.e_end st.metadata_size).2.2 st.filled_bg)
      refine ⟨k :: skipped, taken, h1, ?_, h3, ?_⟩
      · intro k1 hk1
        rcases List.mem_cons.1 hk1 with rfl | hmem
        · exact (process_extent_fst_eq_zero_iff _ _ _ _).1 (by simpa using hr)
        · exact h2 k1 hmem
      · simp only [List.cons_append, List.cons.injEq, true_and]
        exact h4

/-- The extent seek moves its cursor over entries it does not decode and then
over at most one entry it decodes. -/
theorem seek_extent_advance (st : walk_state) :
    ∃ skipped taken : List btrfs_key, taken.length ≤ 1 ∧
      (∀ k ∈ skipped, is_extent_key k = false) ∧ (∀ k ∈ taken, is_extent_key k = true) ∧
      st.e_path = skipped ++ taken ++ (seek_extent st).e_path := by
  unfold seek_extent
  split_ifs
  · exact ⟨[], [], by simp, by simp, by simp, by simp⟩
  · exact extent_seek_loop_advance st st.e_path

theorem seek_active_of_fs {st : walk_state}
    (h : st.process = PROCESS_FREE_SPACE_TREE_ELEMENT_FLAG) :
    seek_active st = seek_free_space st := by
  simp [seek_active, h, PROCESS_FREE_SPACE_TREE_ELEMENT_FLAG]

theorem seek_active_of_e {st : walk_state}
    (h : st.process = PROCESS_EXTENT_TREE_ELEMENT_FLAG) :
    seek_active st = seek_extent st := by
  simp [seek_active, h, PROCESS_FREE_SPACE_TREE_ELEMENT_FLAG, PROCESS_EXTENT_TREE_ELEMENT_FLAG]

theorem seek_initial_of_fs {st : walk_state}
    (h : st.process = PROCESS_FREE_SPACE_TREE_ELEMENT_FLAG) :
    seek_initial st = seek_free_space st := by
  have hk := seek_free_space_keeps st
  simp [seek_initial, h, hk, PROCESS_FREE_SPACE_TREE_ELEMENT_FLAG,
    PROCESS_EXTENT_TREE_ELEMENT_FLAG]

theorem seek_initial_of_e {st : walk_state}
    (h : st.process = PROCESS_EXTENT_TREE_ELEMENT_FLAG) :
    seek_initial st = seek_extent st := by
  simp [seek_initial, h, PROCESS_FREE_SPACE_TREE_ELEMENT_FLAG, PROCESS_EXTENT_TREE_ELEMENT_FLAG]

/-- A round of the `while (1)` loop that stays in the loop: `end` was below
`bg_end`, the two sides are as the seek on the active side left them, and the
new `end` is the end of a pending interval that starts at the old `end`. -/
theorem extend_step_extend {st st2 : walk_state} (h : extend_step st = .extend st2) :
    st.end_ < st.bg_end ∧ fs_side st2 = fs_side (seek_active st) ∧
    e_side st2 = e_side (seek_active st) ∧ st2.bg_end = st.bg_end ∧
    st2.bg_start = st.bg_start ∧ st2.metadata_size = st.metadata_size ∧
    st2.filled_bg = st.filled_bg ∧
    (((seek_active st).fs_start = st.end_ ∧ st2.end_ = (seek_active st).fs_end) ∨
      ((seek_active st).e_start = st.end_ ∧ st2.end_ = (seek_active st).e_end)) := by
  have hk := seek_active_keeps st
  simp only [extend_step] at h
  split_ifs at h with h1 h2 h3 h4
  · simp only [walk_config.extend.injEq] at h
    subst h
    exact ⟨by omega, rfl, rfl, hk.2.2.2.1, hk.2.2.1, hk.1, hk.2.2.2.2.2,
      Or.inl ⟨by rw [h3, hk.2.2.2.2.1], rfl⟩⟩
  · simp only [walk_config.extend.injEq] at h
    subst h
    exact ⟨by omega, rfl, rfl, hk.2.2.2.1, hk.2.2.1, hk.1, hk.2.2.2.2.2,
      Or.inr ⟨by rw [h4, hk.2.2.2.2.1], rfl⟩⟩

/-- A round of the `while (1)` loop that completes the block group. -/
theorem extend_step_outer {st st2 : walk_state} (h : extend_step st = .outer st2) :
    st.end_ = st.bg_end ∧ st2 = { st with filled_bg := 1 } := by
  simp only [extend_step] at h
  split_ifs at h with h1
  simp only [walk_config.outer.injEq] at h
  exact ⟨h1, h.symm⟩

/-- Step 1 leaves the extent side, `process`, `end` and the pending free-space
interval alone. -/
theorem seek_boundary_frame {st st1 : walk_state} (h : seek_boundary st = .ok st1) :
    e_side st1 = e_side st ∧ st1.process = st.process ∧ st1.end_ = st.end_ ∧
    st1.fs_start = st.fs_start ∧ st1.fs_end = st.fs_end ∧
    st1.metadata_size = st.metadata_size := by
  unfold seek_boundary at h
  split_ifs at h
  · simp only [Except.ok.injEq] at h
    subst h
    simp
  · cases hl : st.fs_path with
    | nil =>
      simp only [hl, next_element, Except.ok.injEq] at h
      subst h
      simp [e_side]
    | cons k rest =>
      simp only [hl, next_element] at h
      split_ifs at h
      simp only [Except.ok.injEq] at h
      subst h
      simp [e_side]

/-! ## Deleting the entries the extent decoder skips -/

theorem extent_seek_loop_path (st : walk_state) (p l : List btrfs_key) :
    extent_seek_loop { st with e_path := p } l = extent_seek_loop st l := by
  cases l <;> rfl

theorem extent_seek_loop_strip (st : walk_state) (l : List btrfs_key) :
    strip_state (extent_seek_loop st l)
      = extent_seek_loop (strip_state st) (extent_related l) := by
  induction l generalizing st with
  | nil => rfl
  | cons k rest ih =>
    cases hk : is_extent_key k with
    | true =>
      have hr : (process_extent k st.e_start st.e_end st.metadata_size).1 ≠ 0 := by
        intro h0
        rw [(process_extent_fst_eq_zero_iff _ _ _ _).1 h0] at hk
        exact absurd hk (by simp)
      have hl : extent_related (k :: rest) = k :: extent_related rest := by
        simp [extent_related, List.filter_cons, hk]
      rw [hl]
      simp only [extent_seek_loop, strip_state]
      rw [if_pos hr, if_pos hr]
    | false =>
      have hr : (process_extent k st.e_start st.e_end st.metadata_size).1 = 0 :=
        (process_extent_fst_eq_zero_iff _ _ _ _).2 hk
      have hl : extent_related (k :: rest) = extent_related rest := by
        simp [extent_related, List.filter_cons, hk]
      have hty : k.type ≠ BTRFS_EXTENT_ITEM_KEY ∧ k.type ≠ BTRFS_METADATA_ITEM_KEY := by
        simpa [is_extent_key, not_or] using hk
      rw [hl]
      simp only [extent_seek_loop]
      rw [if_neg (by simp [hr]), ih, process_extent_skip hty.1 hty.2]
      exact extent_seek_loop_path (strip_state st) _ _

theorem seek_extent_strip (st : walk_state) :
    strip_state (seek_extent st) = seek_extent (strip_state st) := by
  unfold seek_extent
  by_cases hd : st.e_walk_done = true
  · have hd2 : (strip_state st).e_walk_done = true := hd
    rw [if_pos hd, if_pos hd2]
  · have hd2 : ¬ (strip_state st).e_walk_done = true := hd
    rw [if_neg hd, if_neg hd2]
    exact extent_seek_loop_strip st st.e_path

theorem free_space_seek_loop_strip (st : walk_state) (l : List btrfs_key) :
    strip_state (free_space_seek_loop st l) = free_space_seek_loop (strip_state st) l := by
  cases l with
  | nil => rfl
  | cons k rest =>
    simp only [free_space_seek_loop, process_free_space_extent_fst]
    rfl

theorem seek_free_space_strip (st : walk_state) :
    strip_state (seek_free_space st) = seek_free_space (strip_state st) := by
  unfold seek_free_space
  by_cases hd : st.fs_walk_done = true
  · have hd2 : (strip_state st).fs_walk_done = true := hd
    rw [if_pos hd, if_pos hd2]
  · have hd2 : ¬ (strip_state st).fs_walk_done = true := hd
    rw [if_neg hd, if_neg hd2]
    exact free_space_seek_loop_strip st st.fs_path

theorem seek_initial_strip (st : walk_state) :
    strip_state (seek_initial st) = seek_initial (strip_state st) := by
  have hp : (strip_state st).process = st.process := rfl
  have hk := seek_free_space_keeps st
  have hk2 := seek_free_space_keeps (strip_state st)
  by_cases h1 : st.process &&& PROCESS_FREE_SPACE_TREE_ELEMENT_FLAG = 0 <;>
    by_cases h2 : st.process &&& PROCESS_EXTENT_TREE_ELEMENT_FLAG = 0 <;>
    simp [seek_initial, hp, h1, h2, hk, hk2, seek_free_space_strip, seek_extent_strip]

theorem seek_active_strip (st : walk_state) :
    strip_state (seek_active st) = seek_active (strip_state st) := by
  have hp : (strip_state st).process = st.process := rfl
  by_cases h1 : st.process &&& PROCESS_FREE_SPACE_TREE_ELEMENT_FLAG = 0 <;>
    by_cases h2 : st.process &&& PROCESS_EXTENT_TREE_ELEMENT_FLAG = 0 <;>
    simp [seek_active, hp, h1, h2, seek_free_space_strip, seek_extent_strip]

theorem seek_boundary_strip (st : walk_state) :
    seek_boundary (strip_state st)
      = match seek_boundary st with
        | .ok s => .ok (strip_state s)
        | .error s => .error (strip_state s) := by
  have hb : (strip_state st).bg_start = st.bg_start := rfl
  have he : (strip_state st).bg_end = st.bg_end := rfl
  have hp : (strip_state st).fs_path = st.fs_path := rfl
  have hd2 : (strip_state st).fs_walk_done = st.fs_walk_done := rfl
  unfold seek_boundary
  rw [hd2, hp, hb, he]
  by_cases hd : st.fs_walk_done = true
  · rw [if_pos hd, if_pos hd]
  · rw [if_neg hd, if_neg hd]
    cases st.fs_path with
    | nil => rfl
    | cons k rest =>
      simp only [next_element]
      by_cases hr : (process_free_space_info k st.bg_start st.bg_end).1 ≠ 0
      · rw [if_pos hr, if_pos hr]
        rfl
      · rw [if_neg hr, if_neg hr]
        rfl

theorem final_check_strip (st : walk_state) :
    final_check (strip_state st) = strip_config (final_check st) := by
  unfold final_check
  have hf : (strip_state st).filled_bg = st.filled_bg := rfl
  rw [hf]
  split_ifs <;> rfl

theorem start_rule_strip (st : walk_state) :
    start_rule (strip_state st) = strip_config (start_rule st) := by
  unfold start_rule
  have h1 : (strip_state st).fs_walk_done = st.fs_walk_done := rfl
  have h2 : (strip_state st).e_walk_done = st.e_walk_done := rfl
  have h3 : (strip_state st).fs_start = st.fs_start := rfl
  have h4 : (strip_state st).bg_start = st.bg_start := rfl
  have h5 : (strip_state st).e_start = st.e_start := rfl
  rw [h1, h2, h3, h4, h5, final_check_strip]
  split_ifs <;> rfl

theorem outer_step_strip (st : walk_state) :
    outer_step (strip_state st) = strip_config (outer_step st) := by
  unfold outer_step
  have h1 : (strip_state st).fs_walk_done = st.fs_walk_done := rfl
  have h2 : (strip_state st).e_walk_done = st.e_walk_done := rfl
  rw [h1, h2, seek_boundary_strip, final_check_strip]
  split_ifs
  · cases seek_boundary st with
    | error s => rfl
    | ok s =>
      simp only
      rw [← seek_initial_strip, start_rule_strip]
  · rfl

theorem extend_step_strip (st : walk_state) :
    extend_step (strip_state st) = strip_config (extend_step st) := by
  simp only [extend_step]
  rw [← seek_active_strip]
  have h1 : (strip_state st).end_ = st.end_ := rfl
  have h2 : (strip_state st).bg_end = st.bg_end := rfl
  have h3 : (strip_state (seek_active st)).fs_start = (seek_active st).fs_start := rfl
  have h4 : (strip_state (seek_active st)).end_ = (seek_active st).end_ := rfl
  have h5 : (strip_state (seek_active st)).e_start = (seek_active st).e_start := rfl
  rw [h1, h2, h3, h4, h5]
  split_ifs <;> rfl

theorem walk_step_strip (c : walk_config) :
    walk_step (strip_config c) = strip_config (walk_step c) := by
  cases c with
  | outer st => exact outer_step_strip st
  | extend st => exact extend_step_strip st
  | exit r => rfl

theorem walk_run_strip (fuel : Nat) (c : walk_config) :
    walk_run fuel (strip_config c) = (walk_run fuel c).map strip_result := by
  induction fuel generalizing c with
  | zero => cases c <;> rfl
  | succ n ih => rw [walk_run_succ, walk_run_succ, walk_step_strip, ih]

/-! ## Well-formed pending intervals -/

theorem free_space_seek_loop_wf (st : walk_state) (l : List btrfs_key)
    (hp : st.fs_start < st.fs_end ∨ st.fs_start = U64_MINUS_ONE)
    (hl : ∀ k ∈ l, fs_key_wf k) :
    ((free_space_seek_loop st l).fs_start < (free_space_seek_loop st l).fs_end ∨
      (free_space_seek_loop st l).fs_start = U64_MINUS_ONE) ∧
    (∀ k ∈ (free_space_seek_loop st l).fs_path, fs_key_wf k) ∧
    (free_space_seek_loop st l).fs_path.length
        + (if (free_space_seek_loop st l).fs_walk_done then 0 else 1)
      ≤ l.length + 1 := by
  cases l with
  | nil => simp [free_space_seek_loop, hp]
  | cons k rest =>
    have hk := hl k (List.mem_cons_self _ _)
    have hrest : ∀ k1 ∈ rest, fs_key_wf k1 := fun k1 h1 => hl k1 (List.mem_cons_of_mem _ h1)
    simp only [free_space_seek_loop, process_free_space_extent_fst]
    simp only [ne_eq, one_ne_zero, not_false_eq_true, if_true, List.length_cons]
    refine ⟨?_, hrest, by split_ifs <;> omega⟩
    by_cases hty : k.type = BTRFS_FREE_SPACE_EXTENT_KEY
    · left
      have := hk hty
      simpa [process_free_space_extent, hty] using this
    · have hr : process_free_space_extent k st.fs_start st.fs_end = (1, st.fs_start, st.fs_end) := by
        unfold process_free_space_extent
        simp only [hty, if_false]
        split_ifs <;> rfl
      rw [hr]
      exact hp

/-- The free-space seek keeps the pending intervals well-formed and does not
raise the potential. -/
theorem seek_free_space_wf (st : walk_state) (h : pending_wf st) :
    pending_wf (seek_free_space st) ∧ fs_potential (seek_free_space st) ≤ fs_potential st := by
  have hk := seek_free_space_keeps st
  obtain ⟨h1, h2, h3, h4, h5⟩ := h
  unfold pending_wf fs_potential
  rw [hk.2.2.1, hk.2.2.2.1, hk.2.2.2.2.2.2.2.1, hk.1, hk.2.2.2.2.1]
  by_cases hd : st.fs_walk_done = true
  · have hs : seek_free_space st = st := by simp [seek_free_space, hd]
    rw [hs]
    exact ⟨⟨h1, h2, h3, h4, h5⟩, le_refl _⟩
  · have hs : seek_free_space st = free_space_seek_loop st st.fs_path := by
      simp [seek_free_space, hd]
    rw [hs]
    obtain ⟨w1, w2, w3⟩ := free_space_seek_loop_wf st st.fs_path h1 h4
    refine ⟨⟨w1, h2, h3, w2, h5⟩, ?_⟩
    simp only [hd, if_false, Bool.false_eq_true]
    exact w3

theorem process_extent_of_decoded {k : btrfs_key} {s e m : Nat}
    (h : (process_extent k s e m).1 ≠ 0) :
    (process_extent k 0 0 m).1 ≠ 0 ∧ (process_extent k s e m).2 = (process_extent k 0 0 m).2 := by
  unfold process_extent at h ⊢
  split_ifs at h ⊢ <;> simp_all

theorem extent_seek_loop_wf (st : walk_state) (l : List btrfs_key)
    (hp : st.e_start < st.e_end ∨ st.e_start = U64_MINUS_ONE)
    (hl : ∀ k ∈ l, e_key_wf st.metadata_size k) :
    ((extent_seek_loop st l).e_start < (extent_seek_loop st l).e_end ∨
      (extent_seek_loop st l).e_start = U64_MINUS_ONE) ∧
    (∀ k ∈ (extent_seek_loop st l).e_path, e_key_wf st.metadata_size k) := by
  induction l generalizing st with
  | nil => simp [extent_seek_loop, hp]
  | cons k rest ih =>
    have hk := hl k (List.mem_cons_self _ _)
    have hrest : ∀ k1 ∈ rest, e_key_wf st.metadata_size k1 :=
      fun k1 h1 => hl k1 (List.mem_cons_of_mem _ h1)
    simp only [extent_seek_loop]
    split_ifs with hr
    · obtain ⟨hd, heq⟩ := process_extent_of_decoded hr
      refine ⟨Or.inl ?_, hrest⟩
      have := hk hd
      simp only [heq]
      exact this
    · have hz : is_extent_key k = false :=
        (process_extent_fst_eq_zero_iff _ _ _ _).1 (by simpa using hr)
      have hty : k.type ≠ BTRFS_EXTENT_ITEM_KEY ∧ k.type ≠ BTRFS_METADATA_ITEM_KEY := by
        simpa [is_extent_key, not_or] using hz
      rw [process_extent_skip hty.1 hty.2]
      exact ih _ hp hrest

/-- The extent seek keeps the pending intervals well-formed and the
potential. -/
theorem seek_extent_wf (st : walk_state) (h : pending_wf st) :
    pending_wf (seek_extent st) ∧ fs_potential (seek_extent st) = fs_potential st := by
  have hk := seek_extent_keeps st
  obtain ⟨h1, h2, h3, h4, h5⟩ := h
  unfold pending_wf fs_potential
  rw [hk.2.2.1, hk.2.2.2.1, hk.2.2.2.2.2.2.2.1, hk.1, hk.2.1, hk.2.2.2.2.1]
  by_cases hd : st.e_walk_done = true
  · have hs : seek_extent st = st := by simp [seek_extent, hd]
    rw [hs]
    exact ⟨⟨h1, h2, h3, h4, h5⟩, rfl⟩
  · have hs : seek_extent st = extent_seek_loop st st.e_path := by
      simp [seek_extent, hd]
    rw [hs]
    obtain ⟨w1, w2⟩ := extent_seek_loop_wf st st.e_path h2 h5
    exact ⟨⟨h1, w1, h3, h4, w2⟩, rfl⟩

theorem seek_initial_wf (st : walk_state) (h : pending_wf st) :
    pending_wf (seek_initial st) ∧ fs_potential (seek_initial st) ≤ fs_potential st := by
  have hk := seek_free_space_keeps st
  have hf := seek_free_space_wf st h
  have he := seek_extent_wf st h
  have hfe := seek_extent_wf (seek_free_space st) hf.1
  by_cases h1 : st.process &&& PROCESS_FREE_SPACE_TREE_ELEMENT_FLAG = 0 <;>
    by_cases h2 : st.process &&& PROCESS_EXTENT_TREE_ELEMENT_FLAG = 0 <;>
    simp only [seek_initial, h1, h2, hk, ne_eq, not_true_eq_false, not_false_eq_true,
      if_true, if_false]
  · exact ⟨h, le_refl _⟩
  · exact ⟨he.1, le_of_eq he.2⟩
  · exact hf
  · exact ⟨hfe.1, by rw [hfe.2]; exact hf.2⟩

theorem seek_active_wf (st : walk_state) (h : pending_wf st) :
    pending_wf (seek_active st) ∧ fs_potential (seek_active st) ≤ fs_potential st := by
  have hf := seek_free_space_wf st h
  have he := seek_extent_wf st h
  by_cases h1 : st.process &&& PROCESS_FREE_SPACE_TREE_ELEMENT_FLAG = 0 <;>
    by_cases h2 : st.process &&& PROCESS_EXTENT_TREE_ELEMENT_FLAG = 0 <;>
    simp only [seek_active, h1, h2, ne_eq, not_true_eq_false, not_false_eq_true,
      if_true, if_false]
  · exact ⟨h, le_refl _⟩
  · exact ⟨he.1, le_of_eq he.2⟩
  · exact hf
  · exact hf

/-- Step 1 when it does not fail keeps the pending intervals well-formed; unless
it leaves the free-space cursor exhausted it has consumed one entry. -/
theorem seek_boundary_wf {st st1 : walk_state} (hb : seek_boundary st = .ok st1)
    (h : pending_wf st) :
    pending_wf st1 ∧ fs_potential st1 ≤ fs_potential st ∧
    (st1.fs_walk_done = false →
      st1.fs_path.length < st.fs_path.length ∧ fs_potential st1 + 1 ≤ fs_potential st) := by
  obtain ⟨h1, h2, h3, h4, h5⟩ := h
  unfold seek_boundary at hb
  by_cases hd : st.fs_walk_done = true
  · simp only [hd, if_true, Except.ok.injEq] at hb
    subst hb
    exact ⟨⟨h1, h2, h3, h4, h5⟩, le_refl _, fun hf => by rw [hd] at hf; exact absurd hf (by simp)⟩
  · simp only [hd, if_false, Bool.false_eq_true] at hb
    cases hl : st.fs_path with
    | nil =>
      simp only [hl, next_element, Except.ok.injEq] at hb
      subst hb
      refine ⟨⟨h1, h2, h3, by simp, h5⟩, ?_, fun hf => by simp at hf⟩
      simp [fs_potential]
    | cons k rest =>
      simp only [hl, next_element] at hb
      split_ifs at hb with hr
      simp only [Except.ok.injEq] at hb
      subst hb
      have hrest : ∀ k1 ∈ rest, fs_key_wf k1 := by
        intro k1 hk1
        exact h4 k1 (by rw [hl]; exact List.mem_cons_of_mem _ hk1)
      have hbg : (process_free_space_info k st.bg_start st.bg_end).2.2 ≤ U64_MINUS_ONE := by
        unfold process_free_space_info U64_MINUS_ONE
        split_ifs
        · exact h3
        · have := Nat.mod_lt (k.objectid + k.offset) (by norm_num : 2 ^ 64 > 0)
          simp only
          omega
      refine ⟨⟨h1, h2, hbg, hrest, h5⟩, ?_, fun _ => ⟨?_, ?_⟩⟩
      · simp [fs_potential, hl, hd]
      · simp
      · simp [fs_potential, hl, hd]

/-- An outer iteration never leads back to the head of the outer loop. -/
theorem outer_step_ne_outer (st st2 : walk_state) : outer_step st ≠ .outer st2 := by
  unfold outer_step
  split_ifs
  · cases seek_boundary st with
    | error s => simp
    | ok s =>
      simp only [start_rule, final_check]
      split_ifs <;> simp
  · unfold final_check
    split_ifs <;> simp

/-- An outer iteration that enters the `while (1)` loop has consumed at least
one free-space entry and keeps the pending intervals well-formed. -/
theorem outer_step_extend_wf {st st2 : walk_state} (h : outer_step st = .extend st2)
    (hw : pending_wf st) :
    pending_wf st2 ∧ fs_potential st2 + 1 ≤ fs_potential st ∧
    st2.fs_path.length < st.fs_path.length := by
  cases hb : seek_boundary st with
  | error s =>
    unfold outer_step at h
    rw [hb] at h
    split_ifs at h
    unfold final_check at h
    split_ifs at h
  | ok st1 =>
    rw [outer_step_of_ok hb] at h
    obtain ⟨hw1, -, hcons⟩ := seek_boundary_wf hb hw
    obtain ⟨hw3, hpot3⟩ := seek_initial_wf st1 hw1
    have hnd3 : (seek_initial st1).fs_walk_done = false := by
      cases hd : (seek_initial st1).fs_walk_done with
      | false => rfl
      | true =>
        unfold start_rule final_check at h
        simp only [hd, if_true] at h
        split_ifs at h
    have hnd1 : st1.fs_walk_done = false := by
      cases hd : st1.fs_walk_done with
      | false => rfl
      | true =>
        have hs : seek_free_space st1 = st1 := by simp [seek_free_space, hd]
        have hk := seek_extent_keeps st1
        have : (seek_initial st1).fs_walk_done = true := by
          by_cases h1 : st1.process &&& PROCESS_FREE_SPACE_TREE_ELEMENT_FLAG = 0 <;>
            by_cases h2 : st1.process &&& PROCESS_EXTENT_TREE_ELEMENT_FLAG = 0 <;>
            simp [seek_initial, h1, h2, hs, hk, hd]
        rw [this] at hnd3
        exact absurd hnd3 (by simp)
    obtain ⟨hlen, hpot⟩ := hcons hnd1
    have hlen3 : (seek_initial st1).fs_path.length ≤ st1.fs_path.length := by
      have hpot3' := hpot3
      unfold fs_potential at hpot3'
      rw [hnd3, hnd1] at hpot3'
      simpa using hpot3'
    have hpot_final : fs_potential (seek_initial st1) + 1 ≤ fs_potential st := by omega
    have hlen_final : (seek_initial st1).fs_path.length < st.fs_path.length := by omega
    obtain ⟨w1, w2, w3, w4, w5⟩ := hw3
    unfold start_rule at h
    simp only [hnd3, Bool.false_eq_true, if_false] at h
    split_ifs at h <;> simp only [walk_config.extend.injEq] at h <;> subst h
    · refine ⟨⟨w1, w2, w3, w4, w5⟩, ?_, hlen_final⟩
      unfold fs_potential at hpot_final ⊢
      rw [hnd3] at hpot_final
      exact hpot_final
    · refine ⟨⟨w1, w2, w3, w4, w5⟩, ?_, hlen_final⟩
      unfold fs_potential at hpot_final ⊢
      rw [hnd3] at hpot_final
      exact hpot_final

/-- A round of the `while (1)` loop that stays in the loop keeps the pending
intervals well-formed, does not raise the potential and moves `end` forward. -/
theorem extend_step_extend_wf {st st2 : walk_state} (h : extend_step st = .extend st2)
    (hw : pending_wf st) :
    pending_wf st2 ∧ fs_potential st2 ≤ fs_potential st ∧ st.end_ < st2.end_ := by
  obtain ⟨hlt, hfs, he, hbg, -, hm, -, hnext⟩ := extend_step_extend h
  obtain ⟨⟨w1, w2, w3, w4, w5⟩, hpot⟩ := seek_active_wf st hw
  have hk := seek_active_keeps st
  simp only [fs_side, e_side, Prod.mk.injEq] at hfs he
  obtain ⟨f1, f2, f3, f4⟩ := hfs
  obtain ⟨e1, e2, e3, e4⟩ := he
  have hM : st.bg_end ≤ U64_MINUS_ONE := hw.2.2.1
  refine ⟨⟨by rw [f3, f4]; exact w1, by rw [e3, e4]; exact w2, by rw [hbg]; exact hM,
    by rw [f1]; exact w4, by rw [e1, hm, ← hk.1]; exact w5⟩, ?_, ?_⟩
  · unfold fs_potential at hpot ⊢
    rw [f1, f2]
    exact hpot
  · rcases hnext with ⟨hs, hend⟩ | ⟨hs, hend⟩
    · rw [hend]
      rcases w1 with hlt1 | hmax
      · omega
      · omega
    · rw [hend]
      rcases w2 with hlt1 | hmax
      · omega
      · omega

/-- A round of the `while (1)` loop that completes the block group keeps the
pending intervals well-formed and the potential. -/
theorem extend_step_outer_wf {st st2 : walk_state} (h : extend_step st = .outer st2)
    (hw : pending_wf st) : pending_wf st2 ∧ fs_potential st2 = fs_potential st := by
  obtain ⟨-, hst2⟩ := extend_step_outer h
  subst hst2
  exact ⟨hw, rfl⟩

/-- Every return carries 0 or -1. -/
theorem walk_step_exit_ret {c : walk_config} {r : walk_result} (h : walk_step c = .exit r)
    (hc : ∀ r0, c ≠ .exit r0) : r.ret = 0 ∨ r.ret = -1 := by
  cases c with
  | exit r0 => exact absurd rfl (hc r0)
  | extend st =>
    simp only [walk_step, extend_step] at h
    split_ifs at h <;> simp only [walk_config.exit.injEq] at h <;> subst h <;> simp
  | outer st =>
    simp only [walk_step, outer_step] at h
    split_ifs at h
    · cases hb : seek_boundary st with
      | error s =>
        simp only [hb, walk_config.exit.injEq] at h
        subst h
        simp
      | ok s =>
        simp only [hb, start_rule, final_check] at h
        split_ifs at h <;> simp only [walk_config.exit.injEq] at h <;> subst h <;> simp
    · simp only [final_check] at h
      split_ifs at h <;> simp only [walk_config.exit.injEq] at h <;> subst h <;> simp

/-! ## Termination -/

theorem terminates_of_step {c : walk_config} (h : terminates (walk_step c)) : terminates c := by
  obtain ⟨fuel, r, hr, hret⟩ := h
  exact ⟨fuel + 1, r, by rw [walk_run_succ]; exact hr, hret⟩

theorem terminates_of_exit {c : walk_config} {r : walk_result} (h : walk_step c = .exit r)
    (hc : ∀ r0, c ≠ .exit r0) : terminates c :=
  ⟨1, r, by rw [walk_run_succ, h, walk_run_exit], walk_step_exit_ret h hc⟩

/-- The `while (1)` loop is left after at most `bg_end - end` further rounds,
provided the outer loop terminates from every state of no greater potential. -/
theorem extend_terminates (p : Nat)
    (hout : ∀ st, pending_wf st → fs_potential st ≤ p → terminates (.outer st)) (g : Nat) :
    ∀ st, pending_wf st → fs_potential st ≤ p → st.bg_end - st.end_ ≤ g →
      terminates (.extend st) := by
  induction g with
  | zero =>
    intro st hw hp hg
    cases hs : extend_step st with
    | exit r => exact terminates_of_exit (c := .extend st) hs (fun r0 h => by simp at h)
    | outer st2 =>
      obtain ⟨hw2, hp2⟩ := extend_step_outer_wf hs hw
      apply terminates_of_step
      rw [walk_step, hs]
      exact hout st2 hw2 (by omega)
    | extend st2 =>
      have := (extend_step_extend hs).1
      omega
  | succ g ih =>
    intro st hw hp hg
    cases hs : extend_step st with
    | exit r => exact terminates_of_exit (c := .extend st) hs (fun r0 h => by simp at h)
    | outer st2 =>
      obtain ⟨hw2, hp2⟩ := extend_step_outer_wf hs hw
      apply terminates_of_step
      rw [walk_step, hs]
      exact hout st2 hw2 (by omega)
    | extend st2 =>
      obtain ⟨hw2, hp2, hend⟩ := extend_step_extend_wf hs hw
      obtain ⟨hlt, -, -, hbg, -⟩ := extend_step_extend hs
      apply terminates_of_step
      rw [walk_step, hs]
      exact ih st2 hw2 (by omega) (by omega)

/-- The outer loop terminates from every state with well-formed pending
intervals, by induction on the potential. -/
theorem outer_terminates (p : Nat) :
    ∀ st, pending_wf st → fs_potential st ≤ p → terminates (.outer st) := by
  induction p with
  | zero =>
    intro st hw hp
    cases hs : outer_step st with
    | exit r => exact terminates_of_exit (c := .outer st) hs (fun r0 h => by simp at h)
    | outer st2 => exact absurd hs (outer_step_ne_outer st st2)
    | extend st2 =>
      have := (outer_step_extend_wf hs hw).2.1
      omega
  | succ p ih =>
    intro st hw hp
    cases hs : outer_step st with
    | exit r => exact terminates_of_exit (c := .outer st) hs (fun r0 h => by simp at h)
    | outer st2 => exact absurd hs (outer_step_ne_outer st st2)
    | extend st2 =>
      obtain ⟨hw2, hp2, -⟩ := outer_step_extend_wf hs hw
      apply terminates_of_step
      rw [walk_step, hs]
      exact extend_terminates p ih (st2.bg_end - st2.end_) st2 hw2 (by omega) (le_refl _)

theorem walk_step_wf (c : walk_config) (h : config_wf c) : config_wf (walk_step c) := by
  cases c with
  | exit r => trivial
  | outer st =>
    simp only [walk_step]
    cases hs : outer_step st with
    | exit r => trivial
    | outer st2 => exact absurd hs (outer_step_ne_outer st st2)
    | extend st2 => exact (outer_step_extend_wf hs h).1
  | extend st =>
    simp only [walk_step]
    cases hs : extend_step st with
    | exit r => trivial
    | outer st2 => exact (extend_step_outer_wf hs h).1
    | extend st2 => exact (extend_step_extend_wf hs h).1

theorem walk_iter_wf (n : Nat) (c : walk_config) (h : config_wf c) :
    config_wf (walk_iter n c) := by
  induction n generalizing c with
  | zero => exact h
  | succ n ih => exact ih _ (walk_step_wf c h)

theorem walk_init_wf (free_space_root extent_root : btrfs_root)
    (hfs : ∀ k ∈ free_space_root.items, fs_key_wf k)
    (he : ∀ k ∈ extent_root.items, e_key_wf (extent_root.nodesize % 2 ^ 32) k) :
    pending_wf (walk_init free_space_root extent_root) :=
  ⟨Or.inr rfl, Or.inr rfl, le_refl _, hfs, he⟩

/-! ## The extent last fetched and not yet made active -/

/-- Walking over a block group `[0, 100)` with free `[0, 50)` and allocated
`[50, 75)`, `[75, 100)`: the free-space cursor is exhausted inside the
`while (1)` loop while the extent cursor still has `[75, 100)` ahead, the walk
goes on and returns 0. -/
theorem exhausted_inside_extend_accepted :
    (∃ st, walk_iter 2 (.outer (walk_init half_free_space_root two_extents_root)) = .extend st ∧
      st.fs_walk_done = true ∧ st.e_path = [⟨75, BTRFS_EXTENT_ITEM_KEY, 25⟩]) ∧
    (walk_trees 5 half_free_space_root two_extents_root).map walk_result.outcome
      = some (0, none) :=
  ⟨⟨_, by rfl, by rfl, by rfl⟩, by rfl⟩

/-- C1: soundness of the check fails on the code. The key-ordered image with block
group `[0, 100)`, free extents `[0, 50)` and `[60, 100)` and allocated extent
`[50, 100)` is accepted (`walk_trees` returns 0 without an `ERROR` line) for
every budget of at least four transitions, although the free extent
`[60, 100)` overlaps the allocated extent, so the block group is not tiled. -/
theorem C1_overlapping_image_accepted (fuel : Nat) :
    (∃ st, walk_trees (fuel + 4) overlap_free_space_root overlap_extent_root
        = some ⟨0, none, st⟩) ∧
      ¬ image_tiled overlap_free_space_root.items overlap_extent_root.items
          (overlap_extent_root.nodesize % 2 ^ 32) := by
  constructor
  · exact ⟨_, walk_run_of_iter (n := 4) (by rfl) fuel⟩
  · intro h
    have h1 := (h ⟨0, BTRFS_FREE_SPACE_INFO_KEY, 100⟩
      (by simp [overlap_free_space_root]) rfl).1
    have h2 : (decoded_intervals overlap_free_space_root.items overlap_extent_root.items
        (overlap_extent_root.nodesize % 2 ^ 32)).filter
        (fun iv => 0 ≤ iv.1 ∧ iv.1 < 0 + 100) = [(0, 50), (60, 100), (50, 100)] := by
      decide
    simp only [h2] at h1
    have h3 : ¬ intervals_overlap (60, 100) (50, 100) := by
      have := List.pairwise_cons.1 (List.pairwise_cons.1 h1).2
      exact this.1 (50, 100) (by simp)
    exact h3 ⟨60, by decide, by decide, by decide, by decide⟩

/-- C2: exact tilings are rejected by the code. (a) The image with block group
`[0, 100)` covered by the single allocated extent `[0, 100)` is tiled exactly,
and `walk_trees` returns -1 after printing `ERROR extent(s) remaining after
final block group`. (b) The key-ordered image with block groups `[0, 100)` and
`[100, 200)`, free `[0, 50)`, allocated `[50, 100)`, free `[100, 200)` is tiled
exactly, and `walk_trees` returns -1 after printing `ERROR not found
FREE_SPACE_INFO`. -/
theorem C2_exact_tiling_rejected (fuel : Nat) :
    (image_tiled allocated_only_free_space_root.items allocated_only_extent_root.items
        (allocated_only_extent_root.nodesize % 2 ^ 32) ∧
      ∃ st, walk_trees (fuel + 1) allocated_only_free_space_root allocated_only_extent_root
        = some ⟨-1, some .extents_remaining, st⟩) ∧
    (image_tiled two_groups_free_space_root.items two_groups_extent_root.items
        (two_groups_extent_root.nodesize % 2 ^ 32) ∧
      ∃ st, walk_trees (fuel + 4) two_groups_free_space_root two_groups_extent_root
        = some ⟨-1, some .not_found_free_space_info, st⟩) := by
  refine ⟨⟨?_, _, walk_run_of_iter (n := 1) (by rfl) fuel⟩,
    ⟨?_, _, walk_run_of_iter (n := 4) (by rfl) fuel⟩⟩
  · intro k hk hty
    have hk0 : k = ⟨0, BTRFS_FREE_SPACE_INFO_KEY, 100⟩ := by
      simpa [allocated_only_free_space_root] using hk
    subst hk0
    have h2 : decoded_intervals allocated_only_free_space_root.items
        allocated_only_extent_root.items (allocated_only_extent_root.nodesize % 2 ^ 32)
        = [(0, 100)] := by decide
    simp only [tiles_block_group, h2]
    simp
  · intro k hk hty
    have h2 : decoded_intervals two_groups_free_space_root.items
        two_groups_extent_root.items (two_groups_extent_root.nodesize % 2 ^ 32)
        = [(0, 50), (100, 200), (50, 100)] := by decide
    simp only [two_groups_free_space_root, List.mem_cons, List.mem_singleton,
      List.not_mem_nil, or_false] at hk
    rcases hk with rfl | rfl | rfl | rfl
    · simp only [tiles_block_group, h2]
      refine ⟨by simp [intervals_overlap]; omega, fun x => ?_⟩
      simp
      omega
    · simp [BTRFS_FREE_SPACE_INFO_KEY, BTRFS_FREE_SPACE_EXTENT_KEY] at hty
    · simp only [tiles_block_group, h2]
      refine ⟨by simp [intervals_overlap], fun x => ?_⟩
      simp
    · simp [BTRFS_FREE_SPACE_INFO_KEY, BTRFS_FREE_SPACE_EXTENT_KEY] at hty

/-- C3: the entry point does not report the walk's outcome. On the root whose
registry holds the image with block group `[0, 100)`, free `[0, 40)` and
allocated `[50, 100)`, both roots are resolved, `walk_trees` returns -1 (gap in
block group, expected start 40), and `check_block_group_overlap` returns 0. -/
theorem C3_fault_not_reported (fuel : Nat) :
    get_free_space_root (fuel + 2) gap_root_handle = some (some gap_free_space_root) ∧
    get_extent_root (fuel + 2) gap_root_handle = some (some gap_extent_root) ∧
    (∃ st, walk_trees (fuel + 2) gap_free_space_root gap_extent_root
      = some ⟨-1, some (.gap_in_block_group 0 100 40), st⟩) ∧
    check_block_group_overlap (fuel + 2) gap_root_handle = some 0 := by
  have hf : get_free_space_root (fuel + 2) gap_root_handle = some (some gap_free_space_root) := by
    simp [get_free_space_root, get_free_space_root_loop, gap_root_handle]
  have he : get_extent_root (fuel + 2) gap_root_handle = some (some gap_extent_root) := by
    simp [get_extent_root, get_extent_root_loop, gap_root_handle,
      BTRFS_EXTENT_TREE_OBJECTID, BTRFS_FREE_SPACE_TREE_OBJECTID]
  have hw := walk_run_of_iter (c := .outer (walk_init gap_free_space_root gap_extent_root))
    (n := 2) (by rfl) fuel
  exact ⟨hf, he, ⟨_, hw⟩, check_block_group_overlap_of_walk hf he hw⟩

/-! ## Claims C4 and C5 -/

/-- C4: gap detection. For a single block group `[s, e)` with `s < a < b < e < 2^64`:
(free first) with the free extent `[s, a)` and an extent entry decoded to
`[b, e)`, and (allocated first) with an extent entry decoded to `[s, a)` and the
free extent `[b, e)`, `walk_trees` returns -1 after printing `ERROR gap in block
group s-e, expected something starting at a`, for every budget of at least two
transitions. The extent entry is any key the extent decoder decodes to the
interval (an `EXTENT_ITEM`, or a `METADATA_ITEM` with the matching node size). -/
theorem C4_gap_in_block_group (s a b e nodesize fuel : Nat) (k1 k2 : btrfs_key)
    (hsa : s < a) (hab : a < b) (hbe : b < e) (he : e < 2 ^ 64)
    (hk1 : process_extent k1 U64_MINUS_ONE U64_MINUS_ONE (nodesize % 2 ^ 32) = (1, b, e))
    (hk2 : process_extent k2 U64_MINUS_ONE U64_MINUS_ONE (nodesize % 2 ^ 32) = (1, s, a)) :
    (walk_trees (fuel + 2)
        ⟨BTRFS_FREE_SPACE_TREE_OBJECTID, nodesize,
          [⟨s, BTRFS_FREE_SPACE_INFO_KEY, e - s⟩, ⟨s, BTRFS_FREE_SPACE_EXTENT_KEY, a - s⟩]⟩
        ⟨BTRFS_EXTENT_TREE_OBJECTID, nodesize, [k1]⟩).map walk_result.outcome
      = some (-1, some (.gap_in_block_group s e a)) ∧
    (walk_trees (fuel + 2)
        ⟨BTRFS_FREE_SPACE_TREE_OBJECTID, nodesize,
          [⟨s, BTRFS_FREE_SPACE_INFO_KEY, e - s⟩, ⟨b, BTRFS_FREE_SPACE_EXTENT_KEY, e - b⟩]⟩
        ⟨BTRFS_EXTENT_TREE_OBJECTID, nodesize, [k2]⟩).map walk_result.outcome
      = some (-1, some (.gap_in_block_group s e a)) := by
  have h1 : (s + (e - s)) % 2 ^ 64 = e := by
    rw [Nat.add_sub_cancel' (by omega), Nat.mod_eq_of_lt he]
  have h2 : (s + (a - s)) % 2 ^ 64 = a := by
    rw [Nat.add_sub_cancel' (by omega), Nat.mod_eq_of_lt (by omega)]
  have h2b : (b + (e - b)) % 2 ^ 64 = e := by
    rw [Nat.add_sub_cancel' (by omega), Nat.mod_eq_of_lt he]
  have h3 : ¬ U64_MINUS_ONE < s := by unfold U64_MINUS_ONE; omega
  have h4 : ¬ b < s := by omega
  have h5 : ¬ a = e := by omega
  have h6 : ¬ e < a := by omega
  have h7 : ¬ s = a := by omega
  have h8 : ¬ b = a := by omega
  have h9 : ¬ b = s := by omega
  constructor
  · rw [walk_trees, walk_run_add]
    simp [-Nat.reducePow, walk_iter, walk_step, walk_init, outer_step, seek_boundary,
      next_element, process_free_space_info, seek_initial, seek_free_space,
      free_space_seek_loop, process_free_space_extent, seek_extent, extent_seek_loop,
      start_rule, extend_step, seek_active, PROCESS_EXTENT_TREE_ELEMENT_FLAG,
      PROCESS_FREE_SPACE_TREE_ELEMENT_FLAG, hk1, h1, h2, h3, h4, h5, h6, h7, h8,
      walk_run_exit, walk_result.outcome]
  · rw [walk_trees, walk_run_add]
    simp [-Nat.reducePow, walk_iter, walk_step, walk_init, outer_step, seek_boundary,
      next_element, process_free_space_info, seek_initial, seek_free_space,
      free_space_seek_loop, process_free_space_extent, seek_extent, extent_seek_loop,
      start_rule, extend_step, seek_active, PROCESS_EXTENT_TREE_ELEMENT_FLAG,
      PROCESS_FREE_SPACE_TREE_ELEMENT_FLAG, hk2, h1, h2b, h3, h4, h5, h6, h7, h8, h9,
      walk_run_exit, walk_result.outcome]

/-- C4 at block group `[0, 100)`, free `[0, 40)`, allocated `[50, 100)` (expected
start 40), and at the mirrored image with allocated `[0, 40)`, free
`[50, 100)`. -/
theorem C4_gap_in_block_group_witness :
    (walk_trees 2 gap_free_space_root gap_extent_root).map walk_result.outcome
      = some (-1, some (.gap_in_block_group 0 100 40)) ∧
    (walk_trees 2 gap_mirror_free_space_root gap_mirror_extent_root).map walk_result.outcome
      = some (-1, some (.gap_in_block_group 0 100 40)) :=
  C4_gap_in_block_group 0 40 50 100 16384 0 ⟨50, BTRFS_EXTENT_ITEM_KEY, 50⟩
    ⟨0, BTRFS_EXTENT_ITEM_KEY, 40⟩ (by decide) (by decide) (by decide) (by decide)
    (by rfl) (by rfl)

/-- C6: overrun detection. Whenever the walk reaches the head of the `while (1)`
loop, that is whenever an interval has just been made active at the group start
or at a continuation (`end` is the end of the pending interval of the active
side), and that end is greater than `bg_end`, `walk_trees` returns -1 after
printing `ERROR extent range ends end outside of block group bg_start-bg_end`,
for every budget that reaches this point and one transition more, and
`filled_bg` is still 0. -/
theorem C6_overrun_detected (free_space_root extent_root : btrfs_root) (n fuel : Nat)
    (st : walk_state)
    (hreach : walk_iter n (.outer (walk_init free_space_root extent_root)) = .extend st)
    (hover : st.bg_end < st.end_) :
    active_interval st ∧
    walk_trees (fuel + (n + 1)) free_space_root extent_root
      = some ⟨-1, some (.range_ends_outside st.end_ st.bg_start st.bg_end), st⟩ ∧
    st.filled_bg = 0 := by
  have hinv := reachable_inv free_space_root extent_root n
  rw [hreach] at hinv
  obtain ⟨-, hopen, hact⟩ := hinv
  refine ⟨hact, walk_run_of_iter ?_ fuel, hopen⟩
  rw [walk_iter_succ, hreach]
  have hne : ¬ st.end_ = st.bg_end := by omega
  simp [walk_step, extend_step, hne, hover]

/-- C6 at block group `[0, 100)` with the free extent `[0, 120)`. -/
theorem C6_overrun_detected_witness :
    walk_iter 1 (.outer (walk_init overrun_free_space_root empty_extent_root))
      = .extend overrun_state ∧
    overrun_state.bg_end < overrun_state.end_ ∧
    (active_interval overrun_state ∧
      walk_trees 2 overrun_free_space_root empty_extent_root
        = some ⟨-1, some (.range_ends_outside 120 0 100), overrun_state⟩ ∧
      overrun_state.filled_bg = 0) :=
  ⟨by rfl, by decide,
    C6_overrun_detected overrun_free_space_root empty_extent_root 1 0 overrun_state (by rfl)
      (by decide)⟩

/-- C8: boundary-exactness. For every start `s` (a `u64`) and every length `len`,
with the free-space tree holding exactly `FREE_SPACE_INFO(s, len)` and
`FREE_SPACE_EXTENT(s, len)` and an extent tree without `EXTENT_ITEM` or
`METADATA_ITEM` entries, `walk_trees` returns 0 without an `ERROR` line and with
`filled_bg = 1`, for every budget of at least three transitions. -/
theorem C8_boundary_exact (s len nodesize fuel : Nat) (e_items : List btrfs_key)
    (hs : s < 2 ^ 64)
    (he : ∀ k ∈ e_items, k.type ≠ BTRFS_EXTENT_ITEM_KEY ∧ k.type ≠ BTRFS_METADATA_ITEM_KEY) :
    (walk_trees (fuel + 3)
        ⟨BTRFS_FREE_SPACE_TREE_OBJECTID, nodesize,
          [⟨s, BTRFS_FREE_SPACE_INFO_KEY, len⟩, ⟨s, BTRFS_FREE_SPACE_EXTENT_KEY, len⟩]⟩
        ⟨BTRFS_EXTENT_TREE_OBJECTID, nodesize, e_items⟩).map
        (fun r => (r.ret, r.diag, r.st.filled_bg))
      = some (0, none, 1) := by
  have h3 : ¬ U64_MINUS_ONE < s := by unfold U64_MINUS_ONE; omega
  rw [walk_trees, walk_run_add]
  simp [-Nat.reducePow, walk_iter, walk_step, walk_init, outer_step, seek_boundary,
    next_element, process_free_space_info, seek_initial, seek_free_space,
    free_space_seek_loop, process_free_space_extent, seek_extent,
    extent_seek_loop_skip _ e_items he, start_rule, extend_step, seek_active, final_check,
    PROCESS_EXTENT_TREE_ELEMENT_FLAG, PROCESS_FREE_SPACE_TREE_ELEMENT_FLAG, h3,
    walk_run_exit]

/-- C8 at `s = 1000`, `len = 1000`, with an extent tree without entries. -/
theorem C8_boundary_exact_witness :
    (1000 < 2 ^ 64) ∧
    (walk_trees 3 exact_free_space_root empty_extent_root).map
        (fun r => (r.ret, r.diag, r.st.filled_bg))
      = some (0, none, 1) :=
  ⟨by decide, C8_boundary_exact 1000 1000 16384 0 [] (by decide) (by simp)⟩

/-- C9 fails on the code as stated: with no entry in the free-space tree and no
entry in the extent tree, `walk_trees` returns 0 and prints no `ERROR` line. -/
theorem C9_empty_trees_accepted :
    (walk_trees 1 empty_free_space_root empty_extent_root).map walk_result.outcome
      = some (0, none) := by
  rfl

/-- C9 as amended: when the free-space tree yields no entry at all, `walk_trees`
returns 0 if the extent tree holds no `EXTENT_ITEM` or `METADATA_ITEM` entry, and
returns -1 after printing `ERROR extent(s) remaining after final block group`
if it holds one; `filled_bg` keeps its initial value -1 in both cases. -/
theorem C9_no_free_space_entry (id_f id_e nodesize_f nodesize fuel : Nat)
    (e_items : List btrfs_key) :
    ((∀ k ∈ e_items, k.type ≠ BTRFS_EXTENT_ITEM_KEY ∧ k.type ≠ BTRFS_METADATA_ITEM_KEY) →
      (walk_trees (fuel + 1) ⟨id_f, nodesize_f, []⟩ ⟨id_e, nodesize, e_items⟩).map
          (fun r => (r.ret, r.diag, r.st.filled_bg))
        = some (0, none, -1)) ∧
    ((∃ k ∈ e_items, k.type = BTRFS_EXTENT_ITEM_KEY ∨ k.type = BTRFS_METADATA_ITEM_KEY) →
      (walk_trees (fuel + 1) ⟨id_f, nodesize_f, []⟩ ⟨id_e, nodesize, e_items⟩).map
          (fun r => (r.ret, r.diag, r.st.filled_bg))
        = some (-1, some .extents_remaining, -1)) := by
  constructor
  · intro he
    rw [walk_trees, walk_run_add]
    simp [-Nat.reducePow, walk_iter, walk_step, walk_init, outer_step, seek_boundary,
      next_element, seek_initial, seek_free_space, seek_extent,
      extent_seek_loop_skip _ e_items he, start_rule, final_check,
      PROCESS_EXTENT_TREE_ELEMENT_FLAG, PROCESS_FREE_SPACE_TREE_ELEMENT_FLAG, walk_run_exit]
  · intro he
    have hfound := extent_seek_loop_found
      { walk_init ⟨id_f, nodesize_f, []⟩ ⟨id_e, nodesize, e_items⟩ with fs_walk_done := true }
      e_items rfl he
    have hkeep := (extent_seek_loop_frame
      { walk_init ⟨id_f, nodesize_f, []⟩ ⟨id_e, nodesize, e_items⟩ with fs_walk_done := true }
      e_items)
    obtain ⟨p, d, s, e, hfr⟩ := hkeep
    rw [hfr] at hfound
    simp only at hfound
    rw [walk_trees, walk_run_add]
    simp only [walk_init, PROCESS_EXTENT_TREE_ELEMENT_FLAG, PROCESS_FREE_SPACE_TREE_ELEMENT_FLAG,
      Nat.shiftLeft_zero, Nat.reduceShiftLeft, Nat.reduceOr] at hfr
    simp [-Nat.reducePow, walk_iter, walk_step, walk_init, outer_step, seek_boundary,
      next_element, seek_initial, seek_free_space, seek_extent, hfr, hfound,
      start_rule, final_check,
      PROCESS_EXTENT_TREE_ELEMENT_FLAG, PROCESS_FREE_SPACE_TREE_ELEMENT_FLAG, walk_run_exit]

/-- C9 as amended, at the empty extent tree and at the extent tree holding
`[200, 250)`. -/
theorem C9_no_free_space_entry_witness :
    (walk_trees 1 empty_free_space_root empty_extent_root).map
        (fun r => (r.ret, r.diag, r.st.filled_bg))
      = some (0, none, -1) ∧
    (walk_trees 1 empty_free_space_root trailing_extent_root).map
        (fun r => (r.ret, r.diag, r.st.filled_bg))
      = some (-1, some .extents_remaining, -1) :=
  ⟨(C9_no_free_space_entry BTRFS_FREE_SPACE_TREE_OBJECTID BTRFS_EXTENT_TREE_OBJECTID 16384
      16384 0 []).1 (by simp),
    (C9_no_free_space_entry BTRFS_FREE_SPACE_TREE_OBJECTID BTRFS_EXTENT_TREE_OBJECTID 16384
      16384 0 [⟨200, BTRFS_EXTENT_ITEM_KEY, 50⟩]).2 ⟨_, List.mem_singleton.2 rfl, Or.inl rfl⟩⟩

/-- C10: terminal condition. Whenever `walk_trees` returns 0, at that moment
`fs_walk_done` is set, `e_walk_done` is set and `filled_bg` is not 0. -/
theorem C10_terminal_condition (free_space_root extent_root : btrfs_root) (fuel : Nat)
    (r : walk_result) (h : walk_trees fuel free_space_root extent_root = some r)
    (h0 : r.ret = 0) :
    r.st.fs_walk_done = true ∧ r.st.e_walk_done = true ∧ r.st.filled_bg ≠ 0 :=
  walk_run_ret_zero fuel _ r (fun _ hr0 => by simp at hr0) h h0

/-- C10 at block group `[1000, 2000)` covered by the free extent `[1000, 2000)`:
the walk returns 0 with both flags set and `filled_bg = 1`. -/
theorem C10_terminal_condition_witness :
    ∃ r, walk_trees 3 exact_free_space_root empty_extent_root = some r ∧ r.ret = 0 ∧
      (r.st.fs_walk_done = true ∧ r.st.e_walk_done = true ∧ r.st.filled_bg ≠ 0) :=
  ⟨_, by rfl, by rfl,
    C10_terminal_condition exact_free_space_root empty_extent_root 3 _ (by rfl) (by rfl)⟩

/-! ## Claims C11 to C13 -/

/-- C11 fails on the code as stated: on the free-space sequence `[INFO(0,100),
FREE_SPACE_EXTENT(0,50)]` with an empty extent tree both cursors are exhausted
with the block group open (`filled_bg = 0`), and the line printed is `ERROR gap
in block group 0-100, expected something starting at 50`, not `ERROR did not
fill bg`. -/
theorem C11_exhausted_in_extend_reports_gap :
    (walk_trees 2 half_free_space_root empty_extent_root).map
        (fun r => (r.ret, r.diag, r.st.fs_walk_done, r.st.e_walk_done, r.st.filled_bg))
      = some (-1, some (.gap_in_block_group 0 100 50), true, true, 0) := by
  rfl

/-- C11 as amended. (a) At every start of an outer iteration the walk reaches, if
the seeks of steps 1 and 2 leave both cursors exhausted with a block group open
(`filled_bg = 0`), `walk_trees` returns -1 after printing `ERROR did not fill bg
bg_start-bg_end`. (b) At every head of the `while (1)` loop the walk reaches with
`end < bg_end`, if after the seek on the active side no pending interval starts
at `end` (as when both cursors have run out in the middle of the group),
`walk_trees` returns -1 after printing `ERROR gap in block group
bg_start-bg_end, expected something starting at end`. -/
theorem C11_unfilled_block_group (free_space_root extent_root : btrfs_root) (n fuel : Nat)
    (st : walk_state) :
    (walk_iter n (.outer (walk_init free_space_root extent_root)) = .outer st →
      ∀ st1, seek_boundary st = .ok st1 → (seek_initial st1).fs_walk_done = true →
        (seek_initial st1).e_walk_done = true → (seek_initial st1).filled_bg = 0 →
        walk_trees (fuel + (n + 1)) free_space_root extent_root
          = some ⟨-1, some (.did_not_fill (seek_initial st1).bg_start (seek_initial st1).bg_end),
              seek_initial st1⟩) ∧
    (walk_iter n (.outer (walk_init free_space_root extent_root)) = .extend st →
      st.end_ < st.bg_end → (seek_active st).fs_start ≠ st.end_ →
        (seek_active st).e_start ≠ st.end_ →
        walk_trees (fuel + (n + 1)) free_space_root extent_root
          = some ⟨-1, some (.gap_in_block_group st.bg_start st.bg_end st.end_),
              seek_active st⟩) := by
  constructor
  · intro hreach st1 hb hfs he hfill
    refine walk_trees_of_reach hreach ?_ fuel
    simp [walk_step, outer_step_of_ok hb, start_rule, final_check, hfs, he, hfill]
  · intro hreach hlt hfs he
    refine walk_trees_of_reach hreach ?_ fuel
    have hk := seek_active_keeps st
    have h1 : ¬ st.end_ = st.bg_end := by omega
    have h2 : ¬ st.bg_end < st.end_ := by omega
    simp [walk_step, extend_step, h1, h2, hk, hfs, he]

/-- C11 as amended, at the free-space sequence `[INFO(0,100)]` with an empty
extent tree (did not fill 0-100) and at `[INFO(0,100), FREE_SPACE_EXTENT(0,50)]`
with an empty extent tree (gap in block group 0-100, expected 50). -/
theorem C11_unfilled_block_group_witness :
    (∃ st, walk_trees 1 boundary_only_free_space_root empty_extent_root
        = some ⟨-1, some (.did_not_fill 0 100), st⟩) ∧
    (∃ st, walk_trees 2 half_free_space_root empty_extent_root
        = some ⟨-1, some (.gap_in_block_group 0 100 50), st⟩) := by
  have h1 := (C11_unfilled_block_group boundary_only_free_space_root empty_extent_root 0 0
    (walk_init boundary_only_free_space_root empty_extent_root)).1 rfl _ rfl rfl rfl rfl
  have h2 := (C11_unfilled_block_group half_free_space_root empty_extent_root 1 0 _).2
    rfl (by decide) (by decide) (by decide)
  exact ⟨⟨_, h1⟩, ⟨_, h2⟩⟩

/-- C12: the extent decoder. For every key, every previous content of `*start`
and `*end` and every metadata size: an `EXTENT_ITEM` key gives return value 1,
`start = objectid`, `end = (objectid + offset) mod 2^64`; a `METADATA_ITEM` key
gives 1, `start = objectid`, `end = (objectid + metadata_size) mod 2^64`; any
other key gives 0 and leaves `start` and `end` as they were. -/
theorem C12_process_extent (key : btrfs_key) (start end_ metadata_size : Nat) :
    (key.type = BTRFS_EXTENT_ITEM_KEY →
      process_extent key start end_ metadata_size
        = (1, key.objectid, (key.objectid + key.offset) % 2 ^ 64)) ∧
    (key.type = BTRFS_METADATA_ITEM_KEY →
      process_extent key start end_ metadata_size
        = (1, key.objectid, (key.objectid + metadata_size) % 2 ^ 64)) ∧
    (key.type ≠ BTRFS_EXTENT_ITEM_KEY → key.type ≠ BTRFS_METADATA_ITEM_KEY →
      process_extent key start end_ metadata_size = (0, start, end_)) := by
  refine ⟨fun h => ?_, fun h => ?_, fun h1 h2 => ?_⟩
  · simp [process_extent, h]
  · have hne : ¬ BTRFS_METADATA_ITEM_KEY = BTRFS_EXTENT_ITEM_KEY := by decide
    simp [process_extent, h, hne]
  · simp [process_extent, h1, h2]

/-- C12 at `EXTENT_ITEM(50, 25)`, at `METADATA_ITEM(2^64 - 4096, 0)` with metadata
size 16384 (the sum wraps to 12288), and at a root item key. -/
theorem C12_process_extent_witness :
    process_extent ⟨50, BTRFS_EXTENT_ITEM_KEY, 25⟩ 7 9 16384 = (1, 50, 75) ∧
    process_extent ⟨2 ^ 64 - 4096, BTRFS_METADATA_ITEM_KEY, 0⟩ 7 9 16384
      = (1, 2 ^ 64 - 4096, 12288) ∧
    process_extent ⟨50, BTRFS_ROOT_ITEM_KEY, 25⟩ 7 9 16384 = (0, 7, 9) :=
  ⟨(C12_process_extent ⟨50, BTRFS_EXTENT_ITEM_KEY, 25⟩ 7 9 16384).1 rfl,
    (C12_process_extent ⟨2 ^ 64 - 4096, BTRFS_METADATA_ITEM_KEY, 0⟩ 7 9 16384).2.1 rfl,
    (C12_process_extent ⟨50, BTRFS_ROOT_ITEM_KEY, 25⟩ 7 9 16384).2.2 (by decide) (by decide)⟩

/-- C13: unrelated free-space entries are not skipped by the code.
`process_free_space_extent` returns 1 for a bitmap key and for a root item key
and leaves the pending interval as it was, so the seek stops on such an entry.
On the key-ordered free-space sequences `[INFO(0,100), BITMAP(0,50),
FREE_SPACE_EXTENT(50,50)]` and `[INFO(0,100), ROOT_ITEM(10,0),
FREE_SPACE_EXTENT(50,50)]`, each with the extent tree `[EXTENT_ITEM(0,50)]`,
`walk_trees` returns -1 after printing `ERROR gap in block group 0-100, expected
something starting at 50`, while on the same sequences with those entries
deleted, `[INFO(0,100), FREE_SPACE_EXTENT(50,50)]`, it returns 0. -/
theorem C13_unrelated_entry_not_skipped (fuel : Nat) :
    (key_ordered bitmap_free_space_root.items ∧
      key_ordered unrelated_free_space_root.items ∧
      key_ordered well_formed_extent_root.items) ∧
    process_free_space_extent ⟨0, BTRFS_FREE_SPACE_BITMAP_KEY, 50⟩ 7 9 = (1, 7, 9) ∧
    process_free_space_extent ⟨10, BTRFS_ROOT_ITEM_KEY, 0⟩ 7 9 = (1, 7, 9) ∧
    (walk_trees (fuel + 2) bitmap_free_space_root well_formed_extent_root).map
        walk_result.outcome
      = some (-1, some (.gap_in_block_group 0 100 50)) ∧
    (walk_trees (fuel + 2) unrelated_free_space_root well_formed_extent_root).map
        walk_result.outcome
      = some (-1, some (.gap_in_block_group 0 100 50)) ∧
    free_space_related bitmap_free_space_root.items = well_formed_free_space_root.items ∧
    free_space_related unrelated_free_space_root.items = well_formed_free_space_root.items ∧
    (walk_trees (fuel + 4) well_formed_free_space_root well_formed_extent_root).map
        walk_result.outcome
      = some (0, none) := by
  refine ⟨⟨by decide, by decide, by decide⟩, by rfl, by rfl, ?_, ?_, by decide, by decide, ?_⟩
  · rw [walk_trees, walk_run_of_iter (n := 2) (by rfl) fuel]; rfl
  · rw [walk_trees, walk_run_of_iter (n := 2) (by rfl) fuel]; rfl
  · rw [walk_trees, walk_run_of_iter (n := 4) (by rfl) fuel]; rfl

/-! ## Claims C15 to C17 and C19 -/

/-- C15 fails on the code as stated: the key `FREE_SPACE_EXTENT(2^64 - 1, 2)`, whose
fields are `u64` values, is decoded to start `2^64 - 1` and end `1`. -/
theorem C15_wrapped_interval :
    (process_free_space_extent ⟨2 ^ 64 - 1, BTRFS_FREE_SPACE_EXTENT_KEY, 2⟩ 0 0).2.2
      < (process_free_space_extent ⟨2 ^ 64 - 1, BTRFS_FREE_SPACE_EXTENT_KEY, 2⟩ 0 0).2.1 := by
  decide

/-- C15 as amended: the end is the sum reduced modulo `2^64`, and it is at least the
start exactly when the sum does not wrap. For every key with `u64` fields and
every `u32` metadata size, the boundary produced by `process_free_space_info`,
the interval produced by `process_free_space_extent` and the interval produced
by `process_extent` for an `EXTENT_ITEM` satisfy `start ≤ end` if and only if
`objectid + offset < 2^64`, and the interval produced by `process_extent` for a
`METADATA_ITEM` if and only if `objectid + metadata_size < 2^64`. -/
theorem C15_end_ge_start_iff (key : btrfs_key) (start end_ metadata_size : Nat)
    (hobj : key.objectid < 2 ^ 64) (hoff : key.offset < 2 ^ 64)
    (hm : metadata_size < 2 ^ 32) :
    (key.type = BTRFS_FREE_SPACE_INFO_KEY →
      ((process_free_space_info key start end_).2.1 ≤ (process_free_space_info key start end_).2.2
        ↔ key.objectid + key.offset < 2 ^ 64)) ∧
    (key.type = BTRFS_FREE_SPACE_EXTENT_KEY →
      ((process_free_space_extent key start end_).2.1
          ≤ (process_free_space_extent key start end_).2.2
        ↔ key.objectid + key.offset < 2 ^ 64)) ∧
    (key.type = BTRFS_EXTENT_ITEM_KEY →
      ((process_extent key start end_ metadata_size).2.1
          ≤ (process_extent key start end_ metadata_size).2.2
        ↔ key.objectid + key.offset < 2 ^ 64)) ∧
    (key.type = BTRFS_METADATA_ITEM_KEY →
      ((process_extent key start end_ metadata_size).2.1
          ≤ (process_extent key start end_ metadata_size).2.2
        ↔ key.objectid + metadata_size < 2 ^ 64)) := by
  have hwrap : ∀ a b : Nat, a < 2 ^ 64 → b < 2 ^ 64 →
      (a ≤ (a + b) % 2 ^ 64 ↔ a + b < 2 ^ 64) := by
    intro a b ha hb
    constructor
    · intro h
      by_contra hge
      have : (a + b) % 2 ^ 64 = a + b - 2 ^ 64 := by
        rw [Nat.mod_eq_sub_mod (by omega), Nat.mod_eq_of_lt (by omega)]
      omega
    · intro h
      rw [Nat.mod_eq_of_lt h]
      omega
  have hne : ¬ BTRFS_METADATA_ITEM_KEY = BTRFS_EXTENT_ITEM_KEY := by decide
  refine ⟨fun h => ?_, fun h => ?_, fun h => ?_, fun h => ?_⟩
  · simpa [-Nat.reducePow, process_free_space_info, h] using hwrap _ _ hobj hoff
  · simpa [-Nat.reducePow, process_free_space_extent, h] using hwrap _ _ hobj hoff
  · simpa [-Nat.reducePow, process_extent, h] using hwrap _ _ hobj hoff
  · simpa [-Nat.reducePow, process_extent, h, hne] using
      hwrap _ _ hobj (by omega : metadata_size < 2 ^ 64)

/-- C15 as amended, at `FREE_SPACE_EXTENT(1000, 1000)`: the sum does not wrap and
the interval is `[1000, 2000)`. -/
theorem C15_end_ge_start_iff_witness :
    (process_free_space_extent ⟨1000, BTRFS_FREE_SPACE_EXTENT_KEY, 1000⟩ 0 0).2.1
        ≤ (process_free_space_extent ⟨1000, BTRFS_FREE_SPACE_EXTENT_KEY, 1000⟩ 0 0).2.2
      ↔ 1000 + 1000 < 2 ^ 64 :=
  (C15_end_ge_start_iff ⟨1000, BTRFS_FREE_SPACE_EXTENT_KEY, 1000⟩ 0 0 16384 (by decide)
    (by decide) (by decide)).2.1 rfl

/-- C16: root resolution does not return the registry's answer when the root
passed in has a successor in the red-black tree. (a) With a registry that holds
neither tree and a successor, both functions return the successor instead of
`NULL`, and `check_block_group_overlap` walks it and returns 0 instead of -1.
(b) With a registry that holds both trees and a successor, both functions
return the successor, not the trees found by identifier. (c) When the root
passed in has the free-space tree's object id and a successor, the loop of
`get_free_space_root` is never left. -/
theorem C16_neighbour_returned (fuel : Nat) :
    (orphan_root_handle.global_root
        ⟨BTRFS_FREE_SPACE_TREE_OBJECTID, BTRFS_ROOT_ITEM_KEY, 0⟩ = none ∧
      orphan_root_handle.global_root
        ⟨BTRFS_EXTENT_TREE_OBJECTID, BTRFS_ROOT_ITEM_KEY, 0⟩ = none ∧
      get_free_space_root (fuel + 1) orphan_root_handle = some (some neighbour_root) ∧
      get_extent_root (fuel + 1) orphan_root_handle = some (some neighbour_root) ∧
      check_block_group_overlap (fuel + 1) orphan_root_handle = some 0) ∧
    (gap_neighbour_root_handle.global_root
        ⟨BTRFS_FREE_SPACE_TREE_OBJECTID, BTRFS_ROOT_ITEM_KEY, 0⟩ = some gap_free_space_root ∧
      gap_neighbour_root_handle.global_root
        ⟨BTRFS_EXTENT_TREE_OBJECTID, BTRFS_ROOT_ITEM_KEY, 0⟩ = some gap_extent_root ∧
      get_free_space_root (fuel + 1) gap_neighbour_root_handle = some (some neighbour_root) ∧
      get_extent_root (fuel + 1) gap_neighbour_root_handle = some (some neighbour_root)) ∧
    get_free_space_root fuel looping_root_handle = none := by
  have hf : get_free_space_root (fuel + 1) orphan_root_handle = some (some neighbour_root) := by
    simp [get_free_space_root, get_free_space_root_loop, orphan_root_handle,
      BTRFS_FREE_SPACE_TREE_OBJECTID]
  have he : get_extent_root (fuel + 1) orphan_root_handle = some (some neighbour_root) := by
    simp [get_extent_root, get_extent_root_loop, orphan_root_handle,
      BTRFS_FREE_SPACE_TREE_OBJECTID]
  have hw : walk_trees (fuel + 1) neighbour_root neighbour_root
      = some ⟨0, none, _⟩ :=
    walk_run_of_iter (c := .outer (walk_init neighbour_root neighbour_root)) (n := 1)
      (by rfl) fuel
  refine ⟨⟨rfl, rfl, hf, he, check_block_group_overlap_of_walk hf he hw⟩,
    ⟨by rfl, by rfl, ?_, ?_⟩, ?_⟩
  · simp [get_free_space_root, get_free_space_root_loop, gap_neighbour_root_handle,
      BTRFS_FREE_SPACE_TREE_OBJECTID]
  · simp [get_extent_root, get_extent_root_loop, gap_neighbour_root_handle,
      BTRFS_FREE_SPACE_TREE_OBJECTID]
  · exact get_free_space_root_loop_none (x := neighbour_root) rfl rfl fuel _

/-- C17: the tiling start rule. At every start of an outer iteration the walk
reaches, when the seeks of steps 1 and 2 leave the free-space cursor not
exhausted: if the pending free-space start is below `bg_start`, `walk_trees`
returns -1 after printing `ERROR free space ... starts before block group ...`;
otherwise, if the pending extent start is below `bg_start`, -1 after `ERROR
extent ... starts before block group ...`; otherwise, if neither pending start
equals `bg_start`, -1 after `ERROR gap at the start of block group`. In each
case the walk returns at this transition with `end` and `process` as they were
when the iteration began: no interval is made active. -/
theorem C17_start_rule (free_space_root extent_root : btrfs_root) (n fuel : Nat)
    (st st1 : walk_state)
    (hreach : walk_iter n (.outer (walk_init free_space_root extent_root)) = .outer st)
    (hb : seek_boundary st = .ok st1)
    (hfs : (seek_initial st1).fs_walk_done = false) :
    ((seek_initial st1).fs_start < (seek_initial st1).bg_start →
      walk_trees (fuel + (n + 1)) free_space_root extent_root
        = some ⟨-1, some (.free_space_starts_before (seek_initial st1).fs_start
            (seek_initial st1).fs_end (seek_initial st1).bg_start (seek_initial st1).bg_end),
          seek_initial st1⟩) ∧
    (¬ (seek_initial st1).fs_start < (seek_initial st1).bg_start →
      (seek_initial st1).e_start < (seek_initial st1).bg_start →
      walk_trees (fuel + (n + 1)) free_space_root extent_root
        = some ⟨-1, some (.extent_starts_before (seek_initial st1).e_start
            (seek_initial st1).e_end (seek_initial st1).bg_start (seek_initial st1).bg_end),
          seek_initial st1⟩) ∧
    (¬ (seek_initial st1).fs_start < (seek_initial st1).bg_start →
      ¬ (seek_initial st1).e_start < (seek_initial st1).bg_start →
      (seek_initial st1).fs_start ≠ (seek_initial st1).bg_start →
      (seek_initial st1).e_start ≠ (seek_initial st1).bg_start →
      walk_trees (fuel + (n + 1)) free_space_root extent_root
        = some ⟨-1, some .gap_at_start, seek_initial st1⟩) ∧
    (seek_initial st1).end_ = st.end_ ∧ (seek_initial st1).process = st.process := by
  refine ⟨fun h1 => ?_, fun h1 h2 => ?_, fun h1 h2 h3 h4 => ?_, ?_, ?_⟩
  · refine walk_trees_of_reach hreach ?_ fuel
    simp [walk_step, outer_step_of_ok hb, start_rule, hfs, h1]
  · refine walk_trees_of_reach hreach ?_ fuel
    simp [walk_step, outer_step_of_ok hb, start_rule, hfs, h1, h2]
  · refine walk_trees_of_reach hreach ?_ fuel
    simp [walk_step, outer_step_of_ok hb, start_rule, hfs, h1, h2, h3, h4]
  · rw [(seek_initial_keeps st1).2.2.2.2.1]
    unfold seek_boundary at hb
    split_ifs at hb
    · simp only [Except.ok.injEq] at hb
      rw [← hb]
    · cases hl : st.fs_path with
      | nil =>
        simp only [hl, next_element, Except.ok.injEq] at hb
        rw [← hb]
      | cons k rest =>
        simp only [hl, next_element] at hb
        split_ifs at hb
        simp only [Except.ok.injEq] at hb
        rw [← hb]
  · rw [(seek_initial_keeps st1).2.1]
    have hinv := reachable_inv free_space_root extent_root n
    rw [hreach] at hinv
    exact (seek_boundary_ok hb hinv).2.2.2.1

/-- C17 at block group `[100, 200)` with the free extent `[50, 60)`: the free-space
start 50 is below `bg_start`. -/
theorem C17_start_rule_witness :
    ∃ st1, seek_boundary (walk_init early_free_space_root empty_extent_root) = .ok st1 ∧
      (seek_initial st1).fs_walk_done = false ∧
      (seek_initial st1).fs_start < (seek_initial st1).bg_start ∧
      walk_trees 1 early_free_space_root empty_extent_root
        = some ⟨-1, some (.free_space_starts_before (seek_initial st1).fs_start
            (seek_initial st1).fs_end (seek_initial st1).bg_start (seek_initial st1).bg_end),
          seek_initial st1⟩ ∧
      (seek_initial st1).fs_start = 50 ∧ (seek_initial st1).bg_start = 100 := by
  have h := C17_start_rule early_free_space_root empty_extent_root 0 0
    (walk_init early_free_space_root empty_extent_root) _ rfl rfl rfl
  exact ⟨_, rfl, rfl, by decide, h.1 (by decide), rfl, rfl⟩

/-- C19: termination fails on the code. On the free-space sequence `[INFO(0,100),
FREE_SPACE_EXTENT(0,0)]` with an empty extent tree the walk reaches, after two
transitions, the head of the `while (1)` loop in a state that one round of the
loop maps to itself (`end = fs_start = fs_end = 0`, free-space cursor
exhausted), so no budget of transitions reaches the return. -/
theorem C19_zero_length_interval_loops (fuel : Nat) :
    walk_iter 2 (.outer (walk_init zero_length_free_space_root empty_extent_root))
      = .extend zero_length_state ∧
    extend_step zero_length_state = .extend zero_length_state ∧
    walk_trees fuel zero_length_free_space_root empty_extent_root = none := by
  have hfix : walk_step (.extend zero_length_state) = .extend zero_length_state := by rfl
  refine ⟨by rfl, by rfl, ?_⟩
  have hloop := walk_run_of_fixed hfix (fun r h => by simp at h)
  rcases fuel with _ | _ | n
  · rfl
  · rfl
  · rw [walk_trees, walk_run_add n 2]
    exact hloop n

/-! ## Claim C18 -/

/-- C18: one side only is advanced. At every head of the `while (1)` loop the walk
reaches: (a) a round that stays in the loop either has the free-space side
active, leaves the extent side (cursor, exhaustion flag, pending interval) as it
was and moves the free-space cursor over at most one entry, or has the extent
side active, leaves the free-space side as it was and moves the extent cursor
over entries it does not decode and at most one entry it decodes; (b) when the
round completes the block group, the step-2 seek of the next outer iteration
leaves the extent side as it was if the free-space side was active, and leaves
the free-space side as the boundary seek left it if the extent side was
active. -/
theorem C18_one_side_advanced (free_space_root extent_root : btrfs_root) (n : Nat)
    (st st2 : walk_state)
    (hreach : walk_iter n (.outer (walk_init free_space_root extent_root)) = .extend st) :
    (extend_step st = .extend st2 →
      (st.process = PROCESS_FREE_SPACE_TREE_ELEMENT_FLAG ∧ e_side st2 = e_side st ∧
        ∃ taken : List btrfs_key, taken.length ≤ 1 ∧ st.fs_path = taken ++ st2.fs_path) ∨
      (st.process = PROCESS_EXTENT_TREE_ELEMENT_FLAG ∧ fs_side st2 = fs_side st ∧
        ∃ skipped taken : List btrfs_key, taken.length ≤ 1 ∧
          (∀ k ∈ skipped, is_extent_key k = false) ∧ (∀ k ∈ taken, is_extent_key k = true) ∧
          st.e_path = skipped ++ taken ++ st2.e_path)) ∧
    (extend_step st = .outer st2 → ∀ st1, seek_boundary st2 = .ok st1 →
      (st.process = PROCESS_FREE_SPACE_TREE_ELEMENT_FLAG ∧
        e_side (seek_initial st1) = e_side st) ∨
      (st.process = PROCESS_EXTENT_TREE_ELEMENT_FLAG ∧
        fs_side (seek_initial st1) = fs_side st1)) := by
  have hinv := reachable_inv free_space_root extent_root n
  rw [hreach] at hinv
  obtain ⟨-, -, hact⟩ := hinv
  constructor
  · intro hstep
    obtain ⟨-, hfs, he, -⟩ := extend_step_extend hstep
    rcases hact with ⟨hp, -⟩ | ⟨hp, -⟩
    · left
      rw [seek_active_of_fs hp] at hfs he
      refine ⟨hp, by rw [he, seek_free_space_e_side], ?_⟩
      obtain ⟨taken, h1, h2⟩ := seek_free_space_advance st
      refine ⟨taken, h1, ?_⟩
      have : st2.fs_path = (seek_free_space st).fs_path := congrArg Prod.fst hfs
      rw [this]
      exact h2
    · right
      rw [seek_active_of_e hp] at hfs he
      refine ⟨hp, by rw [hfs, seek_extent_fs_side], ?_⟩
      obtain ⟨skipped, taken, h1, h2, h3, h4⟩ := seek_extent_advance st
      refine ⟨skipped, taken, h1, h2, h3, ?_⟩
      have : st2.e_path = (seek_extent st).e_path := congrArg Prod.fst he
      rw [this]
      exact h4
  · intro hstep st1 hb
    obtain ⟨-, hst2⟩ := extend_step_outer hstep
    obtain ⟨hside, hproc, -⟩ := seek_boundary_frame hb
    have hp2 : st2.process = st.process := by rw [hst2]
    have he2 : e_side st2 = e_side st := by rw [hst2]; rfl
    rcases hact with ⟨hp, -⟩ | ⟨hp, -⟩
    · left
      refine ⟨hp, ?_⟩
      rw [seek_initial_of_fs (by rw [hproc, hp2, hp]), seek_free_space_e_side, hside, he2]
    · right
      refine ⟨hp, ?_⟩
      rw [seek_initial_of_e (by rw [hproc, hp2, hp]), seek_extent_fs_side]

/-- C18 on block groups `[0, 100)` and `[100, 200)` with free `[50, 100)` and an
extent tree holding `[0, 50)`, a root item key and `[100, 200)`: after one
transition the extent side is active and the round skips the root item key and
takes one extent; after two transitions the free-space side is active and
completes the block group. -/
theorem C18_one_side_advanced_witness :
    (∃ st st2, walk_iter 1 (.outer (walk_init second_half_free_space_root mixed_extent_root))
        = .extend st ∧ extend_step st = .extend st2 ∧
      st.process = PROCESS_EXTENT_TREE_ELEMENT_FLAG ∧ fs_side st2 = fs_side st ∧
      st.e_path = [⟨7, BTRFS_ROOT_ITEM_KEY, 0⟩] ++ [⟨100, BTRFS_EXTENT_ITEM_KEY, 100⟩]
        ++ st2.e_path) ∧
    (∃ st st2 st1, walk_iter 2 (.outer (walk_init second_half_free_space_root mixed_extent_root))
        = .extend st ∧ extend_step st = .outer st2 ∧ seek_boundary st2 = .ok st1 ∧
      ((st.process = PROCESS_FREE_SPACE_TREE_ELEMENT_FLAG ∧
          e_side (seek_initial st1) = e_side st) ∨
        (st.process = PROCESS_EXTENT_TREE_ELEMENT_FLAG ∧
          fs_side (seek_initial st1) = fs_side st1))) := by
  have h1 := (C18_one_side_advanced second_half_free_space_root mixed_extent_root 1 _ _ rfl).1
    rfl
  have h2 := (C18_one_side_advanced second_half_free_space_root mixed_extent_root 2 _ _ rfl).2
    rfl _ rfl
  refine ⟨⟨_, _, rfl, rfl, rfl, ?_, rfl⟩, ⟨_, _, _, rfl, rfl, rfl, h2⟩⟩
  rcases h1 with ⟨hp, -⟩ | ⟨-, hfs, -⟩
  · exact absurd hp (by decide)
  · exact hfs

/-! ## Claim C14 -/

/-- C14: unrelated extent-index entries are ignored. For every free-space tree,
every extent sequence `e`, every node size and every budget, `walk_trees` on `e`
with every key that is neither `EXTENT_ITEM` nor `METADATA_ITEM` deleted gives
the result it gives on `e` (the same value returned, the same `ERROR` line, the
same local variables up to the deleted entries ahead of the extent cursor), and
reaches no result within the budget exactly when the walk on `e` reaches
none. -/
theorem C14_unrelated_extent_entries_ignored (fuel : Nat) (free_space_root : btrfs_root)
    (id nodesize : Nat) (e : List btrfs_key) :
    walk_trees fuel free_space_root ⟨id, nodesize, extent_related e⟩
      = (walk_trees fuel free_space_root ⟨id, nodesize, e⟩).map strip_result ∧
    (walk_trees fuel free_space_root ⟨id, nodesize, extent_related e⟩).map walk_result.outcome
      = (walk_trees fuel free_space_root ⟨id, nodesize, e⟩).map walk_result.outcome := by
  have h : walk_trees fuel free_space_root ⟨id, nodesize, extent_related e⟩
      = (walk_trees fuel free_space_root ⟨id, nodesize, e⟩).map strip_result := by
    unfold walk_trees
    rw [← walk_run_strip]
    rfl
  refine ⟨h, ?_⟩
  rw [h, Option.map_map]
  rfl

/-! ## Claim C20 -/

/-- C20: termination for well-formed intervals. When every `FREE_SPACE_EXTENT` key
of the free-space tree and every `EXTENT_ITEM` and `METADATA_ITEM` key of the
extent tree is decoded to an interval with `start < end`: (a) `walk_trees`
returns, with 0 or -1, for some budget of transitions; (b) every round of the
`while (1)` loop that stays in the loop starts with `end < bg_end`, leaves
`bg_end` as it was and ends with a greater `end`; (c) every outer iteration
either returns or enters the `while (1)` loop with fewer entries ahead of the
free-space cursor. -/
theorem C20_terminates_when_well_formed (free_space_root extent_root : btrfs_root)
    (hfs : ∀ k ∈ free_space_root.items, fs_key_wf k)
    (he : ∀ k ∈ extent_root.items, e_key_wf (extent_root.nodesize % 2 ^ 32) k) :
    (∃ fuel r, walk_trees fuel free_space_root extent_root = some r ∧
      (r.ret = 0 ∨ r.ret = -1)) ∧
    (∀ n st st2, walk_iter n (.outer (walk_init free_space_root extent_root)) = .extend st →
      extend_step st = .extend st2 →
      st.end_ < st.bg_end ∧ st2.bg_end = st.bg_end ∧ st.end_ < st2.end_) ∧
    (∀ n st, walk_iter n (.outer (walk_init free_space_root extent_root)) = .outer st →
      (∃ r, outer_step st = .exit r) ∨
      (∃ st2, outer_step st = .extend st2 ∧ st2.fs_path.length < st.fs_path.length)) := by
  have hinit := walk_init_wf free_space_root extent_root hfs he
  have hreach : ∀ n, config_wf (walk_iter n (.outer (walk_init free_space_root extent_root))) :=
    fun n => walk_iter_wf n _ hinit
  refine ⟨outer_terminates _ _ hinit (le_refl _), ?_, ?_⟩
  · intro n st st2 hn hs
    have hw := hreach n
    rw [hn] at hw
    obtain ⟨hlt, -, -, hbg, -⟩ := extend_step_extend hs
    exact ⟨hlt, hbg, (extend_step_extend_wf hs hw).2.2⟩
  · intro n st hn
    have hw := hreach n
    rw [hn] at hw
    cases hs : outer_step st with
    | exit r => exact Or.inl ⟨r, rfl⟩
    | outer st2 => exact absurd hs (outer_step_ne_outer st st2)
    | extend st2 => exact Or.inr ⟨st2, rfl, (outer_step_extend_wf hs hw).2.2⟩

/-- C20 at block group `[0, 100)` with allocated `[0, 50)` and free `[50, 100)`:
both keys are well-formed and the walk returns. -/
theorem C20_terminates_when_well_formed_witness :
    (∀ k ∈ well_formed_free_space_root.items, fs_key_wf k) ∧
    (∀ k ∈ well_formed_extent_root.items,
      e_key_wf (well_formed_extent_root.nodesize % 2 ^ 32) k) ∧
    ∃ fuel r, walk_trees fuel well_formed_free_space_root well_formed_extent_root = some r ∧
      (r.ret = 0 ∨ r.ret = -1) := by
  have h1 : ∀ k ∈ well_formed_free_space_root.items, fs_key_wf k := by
    simp [well_formed_free_space_root, fs_key_wf, process_free_space_extent,
      BTRFS_FREE_SPACE_INFO_KEY, BTRFS_FREE_SPACE_EXTENT_KEY]
  have h2 : ∀ k ∈ well_formed_extent_root.items,
      e_key_wf (well_formed_extent_root.nodesize % 2 ^ 32) k := by
    simp [well_formed_extent_root, e_key_wf, process_extent]
  exact ⟨h1, h2,
    (C20_terminates_when_well_formed well_formed_free_space_root well_formed_extent_root
      h1 h2).1⟩

end BlockGroup
